import Mathlib

/-!
# Linked-list engine of `src/src/ll.c`: a shallow embedding

The C code manipulates heap nodes through raw pointers.  The embedding keeps
that level of detail: a list value carries the node store it owns, pointers
are addresses into that store, and every C statement that reads or writes
through a pointer becomes a fallible step.  Dereferencing the null pointer, a
released node, or an address that was never handed out is undefined behaviour
in C and is reported here as `Fault.invalid`.  Loops whose exit depends on the
shape of the pointer graph take an iteration budget and report `Fault.fuel`
when it is used up.
-/

namespace Algos

/-- Node address. Address `0` is the C null pointer. -/
abbrev Ptr := Nat

/-- Element reference (`void *`), compared by identity. `0` is `NULL`. -/
abbrev Elem := Nat

/-- Ways in which a step of the embedded code can fail to produce a value. -/
inductive Fault where
  /-- Read or write through a null, released or never allocated pointer. -/
  | invalid
  /-- The iteration budget given to a loop was used up. -/
  | fuel
deriving DecidableEq, Repr

/-- One heap node. `SinglyNode` has `elem` and `next`; `DoublyNode` adds
`prev`.  Singly and circular lists never touch `prev`, which stays `0`
as `calloc` left it. -/
structure Node where
  elem : Elem
  next : Ptr
  prev : Ptr
deriving DecidableEq, Repr

/-- The enumeration `ll_ListType` of `ll.h`. -/
inductive ll_ListType where
  | ll_SINGLY
  | ll_DOUBLY
  | ll_CIRCLY
deriving DecidableEq, Repr

open ll_ListType

/-- The record `struct _linkedlist` together with the node store.
`s_head`/`d_head` and `s_tail`/`d_tail` are unions in C, so one field each.
Cell `p - 1` of `mem` holds the node at address `p`; `none` marks a node
that has been passed to `free`. -/
structure ll_LinkedList where
  type : ll_ListType
  size : Nat
  head : Ptr
  tail : Ptr
  mem : List (Option Node)
deriving DecidableEq, Repr

/-- Status codes of `constants.h`. -/
def SUCCESS : Int := 0
/-- Status code `ERROR` of `constants.h`. -/
def ERROR : Int := -1
/-- Status code `NOTFOUND` of `constants.h`. -/
def NOTFOUND : Int := 1

/-- Number of values of `size_t` (LP64: 64 bits). -/
def SIZE_MOD : Nat := 2 ^ 64

/-! ## Pointer primitives -/

/-- Read the node at address `p` (the C expression `*p`). -/
def ll_LinkedList.node (ll : ll_LinkedList) (p : Ptr) : Except Fault Node :=
  match p with
  | 0 => .error .invalid
  | q + 1 =>
    match ll.mem.get? q with
    | some (some n) => .ok n
    | _ => .error .invalid

/-- Overwrite the node at address `p`. -/
def ll_LinkedList.store (ll : ll_LinkedList) (p : Ptr) (n : Node) : ll_LinkedList :=
  { ll with mem := ll.mem.set (p - 1) (some n) }

/-- C expression `p->next`. -/
def ll_LinkedList.next (ll : ll_LinkedList) (p : Ptr) : Except Fault Ptr := do
  let n ← ll.node p
  pure n.next

/-- C expression `p->prev`. -/
def ll_LinkedList.prev (ll : ll_LinkedList) (p : Ptr) : Except Fault Ptr := do
  let n ← ll.node p
  pure n.prev

/-- C expression `p->elem`. -/
def ll_LinkedList.elem (ll : ll_LinkedList) (p : Ptr) : Except Fault Elem := do
  let n ← ll.node p
  pure n.elem

/-- C statement `p->next = q`. -/
def ll_LinkedList.setNext (ll : ll_LinkedList) (p q : Ptr) : Except Fault ll_LinkedList := do
  let n ← ll.node p
  pure (ll.store p { n with next := q })

/-- C statement `p->prev = q`. -/
def ll_LinkedList.setPrev (ll : ll_LinkedList) (p q : Ptr) : Except Fault ll_LinkedList := do
  let n ← ll.node p
  pure (ll.store p { n with prev := q })

/-- C statement `p->elem = e`. -/
def ll_LinkedList.setElem (ll : ll_LinkedList) (p : Ptr) (e : Elem) : Except Fault ll_LinkedList := do
  let n ← ll.node p
  pure (ll.store p { n with elem := e })

/-- The functions `_init_singlynode` and `_init_doublynode`: a zeroed node from
`calloc` with `elem` set and the links null.  Allocation always succeeds here
(the C code aborts on failure). -/
def _init_node (ll : ll_LinkedList) (e : Elem) : ll_LinkedList × Ptr :=
  ({ ll with mem := ll.mem ++ [some { elem := e, next := 0, prev := 0 }] }, ll.mem.length + 1)

/-- The functions `_destroy_singlynode` and `_destroy_doublynode`: read
`node->elem` for the destructor, clear the links and `free` the node.  The
element destructor acts on caller memory, which is outside the store. -/
def _destroy_node (ll : ll_LinkedList) (p : Ptr) : Except Fault ll_LinkedList := do
  let _ ← ll.node p
  pure { ll with mem := ll.mem.set (p - 1) none }

/-- The statement `ll->size++` on a `size_t`. -/
def ll_LinkedList.incSize (ll : ll_LinkedList) : ll_LinkedList :=
  { ll with size := (ll.size + 1) % SIZE_MOD }

/-- The statement `ll->size--` on a `size_t`. -/
def ll_LinkedList.decSize (ll : ll_LinkedList) : ll_LinkedList :=
  { ll with size := (ll.size + SIZE_MOD - 1) % SIZE_MOD }

/-! ## Construction and queries -/

/-- The function `ll_init`. -/
def ll_init (type : ll_ListType) : Except Fault ll_LinkedList := do
  let ll : ll_LinkedList := { type := type, size := 0, head := 0, tail := 0, mem := [] }
  match type with
  | ll_CIRCLY =>
    let (ll, h) := _init_node ll 0
    let ll := { ll with head := h }
    let (ll, t) := _init_node ll 0
    let ll := { ll with tail := t }
    let ll ← ll.setNext ll.head ll.tail
    let ll ← ll.setNext ll.tail ll.head
    pure ll
  | ll_DOUBLY =>
    let (ll, h) := _init_node ll 0
    let ll := { ll with head := h }
    let (ll, t) := _init_node ll 0
    let ll := { ll with tail := t }
    let ll ← ll.setNext ll.head ll.tail
    let ll ← ll.setPrev ll.head ll.head
    let ll ← ll.setNext ll.tail ll.tail
    let ll ← ll.setPrev ll.tail ll.head
    pure ll
  | ll_SINGLY =>
    let (ll, h) := _init_node ll 0
    let ll := { ll with head := h }
    let (ll, t) := _init_node ll 0
    let ll := { ll with tail := t }
    let ll ← ll.setNext ll.head ll.tail
    pure ll

/-- The function `ll_islinkedlistempty`: `head->next == tail`. -/
def ll_islinkedlistempty (ll : ll_LinkedList) : Except Fault Bool := do
  let hn ← ll.next ll.head
  pure (hn == ll.tail)

/-- The function `ll_getlinkedlistsize`: the stored counter. -/
def ll_getlinkedlistsize (ll : ll_LinkedList) : Nat :=
  ll.size

/-! ## Forward traversal (the observation used by the specification) -/

/-- Follow `next` links from `p` and collect the elements of the nodes met
before the tail sentinel is reached. -/
def walk (ll : ll_LinkedList) : Nat → Ptr → Except Fault (List Elem)
  | 0, _ => .error .fuel
  | fuel + 1, p =>
    if p = ll.tail then pure []
    else do
      let n ← ll.node p
      let rest ← walk ll fuel n.next
      pure (n.elem :: rest)

/-- Forward element sequence: the elements of the nodes strictly between the
head sentinel and the tail sentinel, in `next` order.  A path that has not
reached the tail after as many steps as there are cells is cyclic. -/
def ll_elements (ll : ll_LinkedList) : Except Fault (List Elem) := do
  let hn ← ll.next ll.head
  walk ll (ll.mem.length + 1) hn

/-! ## Insertion at the front -/

/-- The function `ll_insert`. -/
def ll_insert (ll : ll_LinkedList) (elem : Elem) : Except Fault (ll_LinkedList × Int) :=
  match ll.type with
  | ll_CIRCLY | ll_SINGLY => do
    let (ll, node) := _init_node ll elem
    let ll ← ll.setElem node elem
    let hn ← ll.next ll.head
    let ll ← ll.setNext node hn
    let ll ← ll.setNext ll.head node
    pure (ll.incSize, SUCCESS)
  | ll_DOUBLY => do
    let (ll, node) := _init_node ll elem
    let ll ← ll.setElem node elem
    let hn ← ll.next ll.head
    let ll ← ll.setNext node hn
    let ll ← ll.setPrev node ll.head
    let hn ← ll.next ll.head
    let ll ← ll.setPrev hn node
    let ll ← ll.setNext ll.head node
    pure (ll.incSize, SUCCESS)

/-! ## Scanning loops

Every scan of `ll.c` starts at `head->next` and advances by `tmp = tmp->next`
while a test on the links ahead of `tmp` holds.  The tests are kept exactly as
written in the source. -/

/-- Loop test of most scans.  CIRCLY: `tmp->next->next != ll->s_head`;
SINGLY and DOUBLY: `tmp->next != tmp->next->next`. -/
def scan_cond (ll : ll_LinkedList) (tmp : Ptr) : Except Fault Bool := do
  let a ← ll.next tmp
  let b ← ll.next a
  match ll.type with
  | ll_CIRCLY => pure (b != ll.head)
  | _ => pure (a != b)

/-- Loop test of `ll_delete_atend` and `ll_delete_before`.  CIRCLY:
`tmp->next->next != ll->s_head`; SINGLY and DOUBLY:
`tmp->next->next != tmp->next->next->next`. -/
def atend_cond (ll : ll_LinkedList) (tmp : Ptr) : Except Fault Bool := do
  let a ← ll.next tmp
  let b ← ll.next a
  match ll.type with
  | ll_CIRCLY => pure (b != ll.head)
  | _ => do
    let c ← ll.next b
    pure (b != c)

/-- Loop test of `ll_delete_after`.  CIRCLY: `tmp->next != ll->s_head`;
SINGLY and DOUBLY: `tmp->next != tmp->next->next`. -/
def after_cond (ll : ll_LinkedList) (tmp : Ptr) : Except Fault Bool := do
  let a ← ll.next tmp
  match ll.type with
  | ll_CIRCLY => pure (a != ll.head)
  | _ => do
    let b ← ll.next a
    pure (a != b)

/-- Test `tmp->elem == elem`. -/
def hit_here (elem : Elem) (ll : ll_LinkedList) (tmp : Ptr) : Except Fault Bool := do
  let e ← ll.elem tmp
  pure (e == elem)

/-- Test `tmp->next->elem == elem`. -/
def hit_next (elem : Elem) (ll : ll_LinkedList) (tmp : Ptr) : Except Fault Bool := do
  let a ← ll.next tmp
  let e ← ll.elem a
  pure (e == elem)

/-- The loop `while (cond) tmp = tmp->next;`: the value of `tmp` on exit. -/
def seek_while (cond : ll_LinkedList → Ptr → Except Fault Bool) (ll : ll_LinkedList) :
    Nat → Ptr → Except Fault Ptr
  | 0, _ => .error .fuel
  | fuel + 1, tmp => do
    if (← cond ll tmp) then
      let t ← ll.next tmp
      seek_while cond ll fuel t
    else
      pure tmp

/-- The loop `while (cond) { if (hit) { ...; break; } tmp = tmp->next; }`:
`some tmp` when the `break` branch is taken at `tmp`, `none` when the loop
test ends the loop.  The store is not written before the `break` branch. -/
def find_while (cond hit : ll_LinkedList → Ptr → Except Fault Bool) (ll : ll_LinkedList) :
    Nat → Ptr → Except Fault (Option Ptr)
  | 0, _ => .error .fuel
  | fuel + 1, tmp => do
    if (← cond ll tmp) then
      if (← hit ll tmp) then
        pure (some tmp)
      else
        let t ← ll.next tmp
        find_while cond hit ll fuel t
    else
      pure none

/-- The loop `while (--pos && cont) tmp = tmp->next;` of the positional
operations, entered with `pos >= 1`.  The argument is the value of `pos` after
the decrement; `&&` does not evaluate `cont` once `pos` is zero. -/
def pos_loop (cont : ll_LinkedList → Ptr → Except Fault Bool) (ll : ll_LinkedList) :
    Nat → Ptr → Except Fault Ptr
  | 0, tmp => pure tmp
  | k + 1, tmp => do
    if (← cont ll tmp) then
      let t ← ll.next tmp
      pos_loop cont ll k t
    else
      pure tmp

/-- Second operand of the positional loops.  CIRCLY: `tmp->next != ll->s_head`;
SINGLY and DOUBLY: `tmp != tmp->next`. -/
def pos_cont (ll : ll_LinkedList) (tmp : Ptr) : Except Fault Bool := do
  let a ← ll.next tmp
  match ll.type with
  | ll_CIRCLY => pure (a != ll.head)
  | _ => pure (tmp != a)

/-! ## Insertion -/

/-- The function `ll_insert_atend`. -/
def ll_insert_atend (fuel : Nat) (ll : ll_LinkedList) (elem : Elem) :
    Except Fault (ll_LinkedList × Int) := do
  if (← ll_islinkedlistempty ll) then
    ll_insert ll elem
  else
    let (ll, node) := _init_node ll elem
    let hn ← ll.next ll.head
    let tmp ← seek_while scan_cond ll fuel hn
    let ll ← ll.setElem node elem
    let tn ← ll.next tmp
    let ll ← ll.setNext node tn
    let ll ← (match ll.type with
      | ll_DOUBLY => ll.setPrev node tmp
      | _ => pure ll)
    let ll ← ll.setNext tmp node
    pure (ll.incSize, SUCCESS)

/-- Body of the `found` branch shared by `ll_insert_before` and
`ll_insert_after`: `node->elem = new_elem; node->next = tmp->next;`
(DOUBLY: `node->prev = tmp;`) `tmp->next = node; ll->size++;`. -/
def link_after (ll : ll_LinkedList) (tmp node : Ptr) (new_elem : Elem) :
    Except Fault ll_LinkedList := do
  let ll ← ll.setElem node new_elem
  let tn ← ll.next tmp
  let ll ← ll.setNext node tn
  let ll ← (match ll.type with
    | ll_DOUBLY => ll.setPrev node tmp
    | _ => pure ll)
  let ll ← ll.setNext tmp node
  pure ll.incSize

/-- The function `ll_insert_before`. -/
def ll_insert_before (fuel : Nat) (ll : ll_LinkedList) (elem new_elem : Elem) :
    Except Fault (ll_LinkedList × Int) := do
  if (← ll_islinkedlistempty ll) then
    let (ll, rc) ← ll_insert ll new_elem
    if SUCCESS = rc then ll_insert ll elem else pure (ll, rc)
  else
    let (ll, node) := _init_node ll elem
    let hn ← ll.next ll.head
    match (← find_while scan_cond (hit_next elem) ll fuel hn) with
    | some tmp =>
      let ll ← link_after ll tmp node new_elem
      pure (ll, SUCCESS)
    | none => pure (ll, NOTFOUND)

/-- The function `ll_insert_after`. -/
def ll_insert_after (fuel : Nat) (ll : ll_LinkedList) (elem new_elem : Elem) :
    Except Fault (ll_LinkedList × Int) := do
  if (← ll_islinkedlistempty ll) then
    let (ll, rc) ← ll_insert ll elem
    if SUCCESS = rc then ll_insert ll new_elem else pure (ll, rc)
  else
    let (ll, node) := _init_node ll elem
    let hn ← ll.next ll.head
    match (← find_while scan_cond (hit_here elem) ll fuel hn) with
    | some tmp =>
      let ll ← link_after ll tmp node new_elem
      pure (ll, SUCCESS)
    | none => pure (ll, NOTFOUND)

/-- Exit test after the positional loops.  CIRCLY: `tmp->next == ll->s_head`;
SINGLY and DOUBLY: `tmp == tmp->next`. -/
def pos_stop (ll : ll_LinkedList) (tmp : Ptr) : Except Fault Bool := do
  let a ← ll.next tmp
  match ll.type with
  | ll_CIRCLY => pure (a == ll.head)
  | _ => pure (tmp == a)

/-- The statements `node->next = tmp->next;` (DOUBLY: `node->prev = tmp;
tmp->next->prev = node;`) `tmp->next = node;` of `ll_insert_elementatpos`. -/
def splice_after (ll : ll_LinkedList) (tmp node : Ptr) : Except Fault ll_LinkedList := do
  let tn ← ll.next tmp
  let ll ← ll.setNext node tn
  let ll ← (match ll.type with
    | ll_DOUBLY => do
      let ll ← ll.setPrev node tmp
      let tn ← ll.next tmp
      ll.setPrev tn node
    | _ => pure ll)
  ll.setNext tmp node

/-- The function `ll_insert_elementatpos`. -/
def ll_insert_elementatpos (ll : ll_LinkedList) (elem : Elem) (pos : Nat) :
    Except Fault (ll_LinkedList × Int) := do
  if pos > ll.size then
    pure (ll, ERROR)
  else
    let tmp := ll.head
    let (ll, node) := _init_node ll elem
    if pos = 0 then
      let ll ← splice_after ll tmp node
      pure (ll.incSize, SUCCESS)
    else
      let tmp ← pos_loop pos_cont ll (pos - 1) tmp
      if (← pos_stop ll tmp) then
        pure (ll, ERROR)
      else
        let ll ← splice_after ll tmp node
        pure (ll.incSize, SUCCESS)

/-! ## Reading -/

/-- The function `ll_get_after`; the null pointer is `0`. -/
def ll_get_after (fuel : Nat) (ll : ll_LinkedList) (elem : Elem) : Except Fault Elem := do
  if (← ll_islinkedlistempty ll) then
    pure 0
  else
    let hn ← ll.next ll.head
    match (← find_while scan_cond (hit_here elem) ll fuel hn) with
    | some tmp =>
      let tn ← ll.next tmp
      ll.elem tn
    | none => pure 0

/-- The function `ll_get_elementatpos`; the null pointer is `0`. -/
def ll_get_elementatpos (ll : ll_LinkedList) (pos : Nat) : Except Fault Elem := do
  if (← ll_islinkedlistempty ll) then
    pure 0
  else if pos ≥ ll.size then
    pure 0
  else
    let tmp := ll.head
    if pos = 0 then
      let tn ← ll.next tmp
      ll.elem tn
    else
      let tmp ← pos_loop pos_cont ll (pos - 1) tmp
      if (← pos_stop ll tmp) then
        pure 0
      else
        ll.elem tmp

/-- The function `ll_get`; the null pointer is `0`. -/
def ll_get (ll : ll_LinkedList) : Except Fault Elem := do
  if (← ll_islinkedlistempty ll) then
    pure 0
  else
    let hn ← ll.next ll.head
    ll.elem hn

/-- The function `ll_get_atend`; the null pointer is `0`. -/
def ll_get_atend (fuel : Nat) (ll : ll_LinkedList) : Except Fault Elem := do
  if (← ll_islinkedlistempty ll) then
    pure 0
  else
    let hn ← ll.next ll.head
    let tmp ← seek_while scan_cond ll fuel hn
    ll.elem tmp

/-- The function `ll_get_before`; the null pointer is `0`. -/
def ll_get_before (fuel : Nat) (ll : ll_LinkedList) (elem : Elem) : Except Fault Elem := do
  if (← ll_islinkedlistempty ll) then
    pure 0
  else
    let hn ← ll.next ll.head
    match (← find_while scan_cond (hit_next elem) ll fuel hn) with
    | some tmp => ll.elem tmp
    | none => pure 0

/-! ## Deletion -/

/-- The statements `node = tmp->next; tmp->next = tmp->next->next;` (DOUBLY:
`tmp->next->next->prev = tmp;`) `_destroy_node(node, dtor);` shared by every
delete operation.  The DOUBLY statement is evaluated after `tmp->next` has
been overwritten, as in the source. -/
def unlink_after (ll : ll_LinkedList) (tmp : Ptr) : Except Fault ll_LinkedList := do
  let node ← ll.next tmp
  let nn ← ll.next node
  let ll ← ll.setNext tmp nn
  let ll ← (match ll.type with
    | ll_DOUBLY => do
      let a ← ll.next tmp
      let b ← ll.next a
      ll.setPrev b tmp
    | _ => pure ll)
  _destroy_node ll node

/-- The function `ll_delete`.  It has no emptiness test and does not touch
`ll->size`. -/
def ll_delete (fuel : Nat) (ll : ll_LinkedList) (elem : Elem) : Except Fault ll_LinkedList := do
  let hn ← ll.next ll.head
  match (← find_while scan_cond (hit_next elem) ll fuel hn) with
  | some tmp => unlink_after ll tmp
  | none => pure ll

/-- The function `ll_delete_atend`.  It has no emptiness test and does not
touch `ll->size`. -/
def ll_delete_atend (fuel : Nat) (ll : ll_LinkedList) : Except Fault ll_LinkedList := do
  let hn ← ll.next ll.head
  let tmp ← seek_while atend_cond ll fuel hn
  unlink_after ll tmp

/-- The function `ll_delete_before`.  Its body is that of `ll_delete_atend`;
the argument `elem` is not read. -/
def ll_delete_before (fuel : Nat) (ll : ll_LinkedList) (_elem : Elem) :
    Except Fault ll_LinkedList := do
  let hn ← ll.next ll.head
  let tmp ← seek_while atend_cond ll fuel hn
  unlink_after ll tmp

/-- The function `ll_delete_after`.  It does not touch `ll->size`. -/
def ll_delete_after (fuel : Nat) (ll : ll_LinkedList) (elem : Elem) :
    Except Fault ll_LinkedList := do
  let hn ← ll.next ll.head
  match (← find_while after_cond (hit_here elem) ll fuel hn) with
  | some tmp => unlink_after ll tmp
  | none => pure ll

/-- Early `return` test after the loop of `ll_delete_elementatpos`.  CIRCLY:
`tmp->next != ll->s_head`; SINGLY and DOUBLY: `tmp == tmp->next`. -/
def delete_pos_stop (ll : ll_LinkedList) (tmp : Ptr) : Except Fault Bool := do
  let a ← ll.next tmp
  match ll.type with
  | ll_CIRCLY => pure (a != ll.head)
  | _ => pure (tmp == a)

/-- The function `ll_delete_elementatpos`. -/
def ll_delete_elementatpos (ll : ll_LinkedList) (pos : Nat) : Except Fault ll_LinkedList := do
  if (← ll_islinkedlistempty ll) then
    pure ll
  else if pos ≥ ll.size then
    pure ll
  else
    let tmp := ll.head
    if pos = 0 then
      let ll ← unlink_after ll tmp
      pure ll.decSize
    else
      let tmp ← pos_loop pos_cont ll (pos - 1) tmp
      if (← delete_pos_stop ll tmp) then
        pure ll
      else
        let ll ← unlink_after ll tmp
        pure ll.decSize

/-! ## Reversal -/

/-- The loop of `ll_reverse`.  Its test is `after_cond`.  SINGLY and CIRCLY:
`node = tmp->next; tmp->next = prev; prev = tmp; tmp = node;`.  DOUBLY:
`node = tmp->next; tmp->next = tmp->prev; tmp->prev = node; tmp = node;`. -/
def reverse_loop : Nat → ll_LinkedList → Ptr → Ptr → Except Fault ll_LinkedList
  | 0, _, _, _ => .error .fuel
  | fuel + 1, ll, tmp, prev => do
    if (← after_cond ll tmp) then
      let node ← ll.next tmp
      match ll.type with
      | ll_DOUBLY =>
        let tp ← ll.prev tmp
        let ll ← ll.setNext tmp tp
        let ll ← ll.setPrev tmp node
        reverse_loop fuel ll node prev
      | _ =>
        let ll ← ll.setNext tmp prev
        reverse_loop fuel ll node tmp
    else
      pure ll

/-- The function `ll_reverse`: nothing on a list that tests empty, otherwise
the loop followed by `node = head; head = tail; tail = node;`. -/
def ll_reverse (fuel : Nat) (ll : ll_LinkedList) : Except Fault ll_LinkedList := do
  if (← ll_islinkedlistempty ll) then
    pure ll
  else
    let tmp ← ll.next ll.head
    let prev := ll.head
    let ll ← reverse_loop fuel ll tmp prev
    let node := ll.head
    let ll := { ll with head := ll.tail }
    pure { ll with tail := node }

/-! ## Merge sort -/

/-- Comparator type `ll_ElemCompare`. -/
abbrev ll_ElemCompare := Elem → Elem → Int

/-- The loop `for (...; i < n; ++i) p = p->next;` run `k` times. -/
def step_next (ll : ll_LinkedList) : Nat → Ptr → Except Fault Ptr
  | 0, p => pure p
  | k + 1, p => do
    let q ← ll.next p
    step_next ll k q

/-- The assignment `copy_list[k] = e` on the array `void *copy_list[max]`. -/
def copy_set (copy_list : List Elem) (k : Nat) (e : Elem) : Except Fault (List Elem) :=
  if k < copy_list.length then pure (copy_list.set k e) else .error .invalid

/-- Cursor state of `_merge`: the counters `i`, `j`, `k`, the node pointers
`n1`, `n2` and the scratch array. -/
structure MergeState where
  i : Nat
  j : Nat
  k : Nat
  n1 : Ptr
  n2 : Ptr
  copy_list : List Elem
deriving DecidableEq, Repr

/-- The loop `for (k = 0; i < mid && j < max; k++)` of `_merge`: the left
element is taken when `comp(n1->elem, n2->elem) < 1`. -/
def merge_both (ll : ll_LinkedList) (mid max : Nat) (comp : ll_ElemCompare) :
    Nat → MergeState → Except Fault MergeState
  | 0, _ => .error .fuel
  | fuel + 1, s => do
    if s.i < mid ∧ s.j < max then
      let e1 ← ll.elem s.n1
      let e2 ← ll.elem s.n2
      let result := comp e1 e2
      if result < 1 then
        let c ← copy_set s.copy_list s.k e1
        let n ← ll.next s.n1
        merge_both ll mid max comp fuel { s with copy_list := c, n1 := n, i := s.i + 1, k := s.k + 1 }
      else
        let c ← copy_set s.copy_list s.k e2
        let n ← ll.next s.n2
        merge_both ll mid max comp fuel { s with copy_list := c, n2 := n, j := s.j + 1, k := s.k + 1 }
    else
      pure s

/-- The loop `while (i < mid) { copy_list[k++] = n1->elem; n1 = n1->next; i++; }`. -/
def merge_left (ll : ll_LinkedList) (mid : Nat) : Nat → MergeState → Except Fault MergeState
  | 0, _ => .error .fuel
  | fuel + 1, s => do
    if s.i < mid then
      let e1 ← ll.elem s.n1
      let c ← copy_set s.copy_list s.k e1
      let n ← ll.next s.n1
      merge_left ll mid fuel { s with copy_list := c, n1 := n, i := s.i + 1, k := s.k + 1 }
    else
      pure s

/-- The loop `while (j < max) { copy_list[k++] = n2->elem; n2 = n2->next; j++; }`. -/
def merge_right (ll : ll_LinkedList) (max : Nat) : Nat → MergeState → Except Fault MergeState
  | 0, _ => .error .fuel
  | fuel + 1, s => do
    if s.j < max then
      let e2 ← ll.elem s.n2
      let c ← copy_set s.copy_list s.k e2
      let n ← ll.next s.n2
      merge_right ll max fuel { s with copy_list := c, n2 := n, j := s.j + 1, k := s.k + 1 }
    else
      pure s

/-- The loop `for (k = 0; k < max; k++) { tmp->next->elem = copy_list[k];
tmp = tmp->next; }`, started at `tmp = head` whatever `min` is. -/
def write_back : List Elem → ll_LinkedList → Ptr → Except Fault ll_LinkedList
  | [], ll, _ => pure ll
  | e :: rest, ll, tmp => do
    let tn ← ll.next tmp
    let ll ← ll.setElem tn e
    let tn ← ll.next tmp
    write_back rest ll tn

/-- The function `_merge`.  The three topologies run the same statements. -/
def _merge (ll : ll_LinkedList) (min mid max : Nat) (comp : ll_ElemCompare) :
    Except Fault ll_LinkedList := do
  let copy_list := List.replicate max 0
  let tmp := ll.head
  let n1 ← ll.next ll.head
  let n1 ← step_next ll min n1
  let i := min
  let n2 ← step_next ll (mid - i) n1
  let j := if i < mid then mid else i
  let s : MergeState := { i := i, j := j, k := 0, n1 := n1, n2 := n2, copy_list := copy_list }
  let s ← merge_both ll mid max comp ((mid - s.i) + (max - s.j) + 1) s
  let s ← merge_left ll mid (mid - s.i + 1) s
  let s ← merge_right ll max (max - s.j + 1) s
  write_back s.copy_list ll tmp

/-- The function `ll_sort`.  The budget bounds the depth of the recursion. -/
def ll_sort : Nat → ll_LinkedList → Nat → Nat → ll_ElemCompare → Except Fault ll_LinkedList
  | 0, _, _, _, _ => .error .fuel
  | fuel + 1, ll, min, max, comp => do
    if min < max then
      let mid := ((min + max) % SIZE_MOD) / 2
      let ll ← ll_sort fuel ll min mid comp
      let ll ← ll_sort fuel ll (mid + 1) max comp
      _merge ll min (mid + 1) max comp
    else
      pure ll

/-! ## Search and exchange -/

/-- The loop of `ll_search`: `while (scan_cond) { if (tmp->elem == elem)
found = true; tmp = tmp->next; }`. -/
def search_loop (elem : Elem) (ll : ll_LinkedList) : Nat → Ptr → Bool → Except Fault Bool
  | 0, _, _ => .error .fuel
  | fuel + 1, tmp, found => do
    if (← scan_cond ll tmp) then
      let e ← ll.elem tmp
      let found := if e = elem then true else found
      let t ← ll.next tmp
      search_loop elem ll fuel t found
    else
      pure found

/-- The function `ll_search`. -/
def ll_search (fuel : Nat) (ll : ll_LinkedList) (elem : Elem) : Except Fault Bool := do
  if (← ll_islinkedlistempty ll) then
    pure false
  else
    let hn ← ll.next ll.head
    search_loop elem ll fuel hn false

/-- The loop of `ll_exchange`: `while (scan_cond) { if (tmp->elem == elem1)
n1 = tmp; else if (tmp->elem == elem2) n2 = tmp; tmp = tmp->next; }`.  The
result is the pair `(n1, n2)` on exit. -/
def exchange_loop (elem1 elem2 : Elem) (ll : ll_LinkedList) :
    Nat → Ptr → Ptr → Ptr → Except Fault (Ptr × Ptr)
  | 0, _, _, _ => .error .fuel
  | fuel + 1, tmp, n1, n2 => do
    if (← scan_cond ll tmp) then
      let e ← ll.elem tmp
      let t ← ll.next tmp
      if e = elem1 then
        exchange_loop elem1 elem2 ll fuel t tmp n2
      else if e = elem2 then
        exchange_loop elem1 elem2 ll fuel t n1 tmp
      else
        exchange_loop elem1 elem2 ll fuel t n1 n2
    else
      pure (n1, n2)

/-- The function `ll_exchange`: after the loop, when both `n1` and `n2` are
non-null, `e = n1->elem; n1->elem = n2->elem; n2->elem = e;` and `SUCCESS`;
otherwise `ERROR`. -/
def ll_exchange (fuel : Nat) (ll : ll_LinkedList) (elem1 elem2 : Elem) :
    Except Fault (ll_LinkedList × Int) := do
  if (← ll_islinkedlistempty ll) then
    pure (ll, ERROR)
  else
    let hn ← ll.next ll.head
    let (n1, n2) ← exchange_loop elem1 elem2 ll fuel hn 0 0
    if n1 ≠ 0 ∧ n2 ≠ 0 then
      let e ← ll.elem n1
      let e2 ← ll.elem n2
      let ll ← ll.setElem n1 e2
      let ll ← ll.setElem n2 e
      pure (ll, SUCCESS)
    else
      pure (ll, ERROR)

/-- The function `_search_reverse(start, end, elem)`; the parameter `end` is
called `stop` here.  The value of the recursive call is discarded, as in the
source, and the result is `start->elem == elem`. -/
def _search_reverse (ll : ll_LinkedList) (stop : Ptr) (elem : Elem) :
    Nat → Ptr → Except Fault Bool
  | 0, _ => .error .fuel
  | fuel + 1, start =>
    if start = stop then
      pure false
    else do
      let sn ← ll.next start
      let _ ← _search_reverse ll stop elem fuel sn
      let e ← ll.elem start
      if e = elem then pure true else pure false

/-- The DOUBLY loop of `ll_search_reverse`: `while (tmp->prev != ll->d_head)
{ if (tmp->elem == elem) found = true; tmp = tmp->prev; }`. -/
def search_back_loop (elem : Elem) (ll : ll_LinkedList) : Nat → Ptr → Bool → Except Fault Bool
  | 0, _, _ => .error .fuel
  | fuel + 1, tmp, found => do
    let tp ← ll.prev tmp
    if tp ≠ ll.head then
      let e ← ll.elem tmp
      let found := if e = elem then true else found
      search_back_loop elem ll fuel tp found
    else
      pure found

/-- The function `ll_search_reverse`. -/
def ll_search_reverse (fuel : Nat) (ll : ll_LinkedList) (elem : Elem) : Except Fault Bool := do
  if (← ll_islinkedlistempty ll) then
    pure false
  else
    match ll.type with
    | ll_DOUBLY =>
      let tmp ← ll.prev ll.tail
      search_back_loop elem ll fuel tmp false
    | _ =>
      let hn ← ll.next ll.head
      _search_reverse ll ll.tail elem fuel hn

/-! ## Building inputs through the public operations -/

/-- The list obtained from `ll_init(type)` by calling `ll_insert` for every
element of `xs`, last element first, so that `xs` is the forward order. -/
def ll_build (type : ll_ListType) : List Elem → Except Fault ll_LinkedList
  | [] => ll_init type
  | x :: xs => do
    let ll ← ll_build type xs
    let (ll, _) ← ll_insert ll x
    pure ll

/-- A comparator in the sense of `ll_ElemCompare` that orders element
references by their numeric value: negative, zero or positive. -/
def cmp_value : ll_ElemCompare := fun a b => (a : Int) - (b : Int)

/-- A comparator under which all elements compare equal. -/
def cmp_equal : ll_ElemCompare := fun _ _ => 0

/-! ## Well-formed lists

The shape that `ll_init` sets up and that the operations are meant to keep:
the head sentinel, then the real nodes, then the tail sentinel, all distinct
and allocated, with the link out of the tail sentinel that the topology
prescribes.  The `prev` links play no part in it. -/

/-- The chain `Seg ll p ps`: starting at `p` and following `next`, the nodes
met are the allocated nodes `ps`, in this order, and the link out of the last
one is the tail sentinel. -/
def Seg (ll : ll_LinkedList) : Ptr → List Ptr → Prop
  | p, [] => p = ll.tail
  | p, q :: qs => p = q ∧ ∃ n, ll.node q = .ok n ∧ Seg ll n.next qs

/-- The value `ll_init` leaves in `tail->next`: the head sentinel for CIRCLY,
the tail sentinel itself for DOUBLY, null for SINGLY. -/
def tail_link (ll : ll_LinkedList) : Ptr :=
  match ll.type with
  | ll_CIRCLY => ll.head
  | ll_DOUBLY => ll.tail
  | ll_SINGLY => 0

/-- A well-formed list whose real nodes are `ps` in forward order: the chain
from the head sentinel runs through `ps` to the tail sentinel, the sentinels
and the real nodes are pairwise distinct, and the tail sentinel is allocated
with its link as `ll_init` left it. -/
def WellFormed (ll : ll_LinkedList) (ps : List Ptr) : Prop :=
  Seg ll ll.head (ll.head :: ps) ∧ (ll.head :: ps).Nodup ∧ ll.tail ∉ ll.head :: ps
    ∧ ∃ t, ll.node ll.tail = .ok t ∧ t.next = tail_link ll

/-- The element held by the node at `p` (null when `p` is not allocated). -/
def payload (ll : ll_LinkedList) (p : Ptr) : Elem :=
  match ll.node p with
  | .ok n => n.elem
  | .error _ => 0

/-- The relation `Upd ll ll' p n`: the list `ll'` is `ll` with the node at `p`
overwritten by `n`; the fields of the list record and every other cell are the
same. -/
def Upd (ll ll' : ll_LinkedList) (p : Ptr) (n : Node) : Prop :=
  ll'.head = ll.head ∧ ll'.tail = ll.tail ∧ ll'.type = ll.type ∧ ll'.size = ll.size
    ∧ ll'.mem.length = ll.mem.length
    ∧ ∀ r : Nat, ll'.node r = if r = p then .ok n else ll.node r

/-- The doubly-linked list built by `ll_insert(3)`, `ll_insert(2)`,
`ll_insert(1)` on `ll_init(ll_DOUBLY)`, written out. -/
def doubly_123 : ll_LinkedList :=
  { type := ll_DOUBLY, size := 3, head := 1, tail := 2,
    mem := [some { elem := 0, next := 5, prev := 1 }, some { elem := 0, next := 2, prev := 3 },
      some { elem := 3, next := 2, prev := 4 }, some { elem := 2, next := 3, prev := 5 },
      some { elem := 1, next := 4, prev := 1 }] }

/-- The circular list built by `ll_insert(3)`, `ll_insert(2)`, `ll_insert(1)`
on `ll_init(ll_CIRCLY)`, written out. -/
def circly_123 : ll_LinkedList :=
  { type := ll_CIRCLY, size := 3, head := 1, tail := 2,
    mem := [some { elem := 0, next := 5, prev := 0 }, some { elem := 0, next := 1, prev := 0 },
      some { elem := 3, next := 2, prev := 0 }, some { elem := 2, next := 3, prev := 0 },
      some { elem := 1, next := 4, prev := 0 }] }

/-- The singly-linked list built by `ll_insert(3)`, `ll_insert(2)`,
`ll_insert(1)` on `ll_init(ll_SINGLY)`, written out. -/
def singly_123 : ll_LinkedList :=
  { type := ll_SINGLY, size := 3, head := 1, tail := 2,
    mem := [some { elem := 0, next := 5, prev := 0 }, some { elem := 0, next := 0, prev := 0 },
      some { elem := 3, next := 2, prev := 0 }, some { elem := 2, next := 3, prev := 0 },
      some { elem := 1, next := 4, prev := 0 }] }

/-! ## Printing -/

/-- The loop of `ll_print`: `while (scan_cond) { print(tmp->elem);
tmp = tmp->next; }`.  The calls of `print` are recorded in order. -/
def print_loop (ll : ll_LinkedList) : Nat → Ptr → List Elem → Except Fault (List Elem)
  | 0, _, _ => .error .fuel
  | fuel + 1, tmp, out => do
    if (← scan_cond ll tmp) then
      let e ← ll.elem tmp
      let t ← ll.next tmp
      print_loop ll fuel t (out ++ [e])
    else
      pure out

/-- The function `ll_print`: the loop started at `head->next`.  It has no
emptiness test.  The result is the sequence of elements handed to `print`. -/
def ll_print (fuel : Nat) (ll : ll_LinkedList) : Except Fault (List Elem) := do
  let hn ← ll.next ll.head
  print_loop ll fuel hn []

/-! ## Link observations

Two more observations of the store, used to state the invariants of the
doubly-linked and the circular topology. -/

/-- Check `n->next->prev == n` for every node `n` on the forward chain from
`p` up to the tail sentinel. -/
def prev_links_ok (ll : ll_LinkedList) : Nat → Ptr → Except Fault Bool
  | 0, _ => .error .fuel
  | fuel + 1, p =>
    if p = ll.tail then pure true
    else do
      let n ← ll.node p
      let s ← ll.node n.next
      if s.prev = p then prev_links_ok ll fuel n.next else pure false

/-- Link consistency of a doubly-linked list: every real node `n` satisfies
`n->next->prev == n`. -/
def ll_links_consistent (ll : ll_LinkedList) : Except Fault Bool := do
  let hn ← ll.next ll.head
  prev_links_ok ll (ll.mem.length + 1) hn

/-- Follow `prev` links from `p` and collect the elements of the nodes met
before the head sentinel is reached. -/
def walk_back (ll : ll_LinkedList) : Nat → Ptr → Except Fault (List Elem)
  | 0, _ => .error .fuel
  | fuel + 1, p =>
    if p = ll.head then pure []
    else do
      let n ← ll.node p
      let rest ← walk_back ll fuel n.prev
      pure (n.elem :: rest)

/-- Backward element sequence of a doubly-linked list: the elements met from
`tail->prev` along `prev` links up to the head sentinel. -/
def ll_elements_back (ll : ll_LinkedList) : Except Fault (List Elem) := do
  let tp ← ll.prev ll.tail
  walk_back ll (ll.mem.length + 1) tp

/-- Addresses of the live cells other than the two sentinels: the real nodes
of the list. -/
def ll_real_nodes (ll : ll_LinkedList) : List Ptr :=
  ((List.range ll.mem.length).map (· + 1)).filter fun p =>
    (match ll.node p with
      | .ok _ => true
      | .error _ => false) && p != ll.head && p != ll.tail

/-- Follow `next` links from `p` and collect the addresses met before the
tail sentinel is reached. -/
def walk_nodes (ll : ll_LinkedList) : Nat → Ptr → Except Fault (List Ptr)
  | 0, _ => .error .fuel
  | fuel + 1, p =>
    if p = ll.tail then pure []
    else do
      let n ← ll.node p
      let rest ← walk_nodes ll fuel n.next
      pure (p :: rest)

/-- Ring shape of a circular list: the `next` links from the head sentinel
pass through exactly the real nodes, then reach the tail sentinel, and
`tail->next == head`. -/
def ll_ring_shape (ll : ll_LinkedList) : Except Fault Bool := do
  let hn ← ll.next ll.head
  let ps ← walk_nodes ll (ll.mem.length + 1) hn
  let tn ← ll.next ll.tail
  pure (decide (ps.Perm (ll_real_nodes ll)) && tn == ll.head)

/-! ## The vector of `vt.c`

The buffer `vt->list` is a list of cells, one per allocated slot.  A cell is
`some e` when it holds the reference `e` (`some 0` is the null reference put
there by `calloc`) and `none` when its content is indeterminate, as in the
part of the buffer added by `realloc`.  Reading or writing a position outside
the buffer, or reading an indeterminate cell, is `Fault.invalid`.  The
counters are `size_t` values. -/

/-- The constant `vt_INITIAL_VECTOR_CAPACITY` of `vt.h` (`VECTOR_CAPACITY`
not defined). -/
def vt_INITIAL_VECTOR_CAPACITY : Nat := 50

/-- The value of `sizeof *vt->list` (an object pointer on a 64-bit target). -/
def vt_ELEMENT_BYTES : Nat := 8

/-- The struct `_vector`. -/
structure vt_Vector where
  /-- The field `size`. -/
  size : Nat
  /-- The field `index`: the next position written by `vt_add`. -/
  index : Nat
  /-- The field `capacity`. -/
  capacity : Nat
  /-- The buffer `list`. -/
  list : List (Option Elem)
  deriving DecidableEq, Repr

/-- Read `vt->list[i]`. -/
def vt_Vector.read (vt : vt_Vector) (i : Nat) : Except Fault Elem :=
  match vt.list.get? i with
  | some (some e) => .ok e
  | _ => .error .invalid

/-- Write `vt->list[i] = e`. -/
def vt_Vector.write (vt : vt_Vector) (i : Nat) (e : Elem) : Except Fault vt_Vector :=
  if i < vt.list.length then .ok { vt with list := vt.list.set i (some e) }
  else .error .invalid

/-- The function `vt_init`. -/
def vt_init : vt_Vector :=
  { size := 0, index := 0, capacity := vt_INITIAL_VECTOR_CAPACITY,
    list := List.replicate vt_INITIAL_VECTOR_CAPACITY (some 0) }

/-- The function `_grow_vector`: `realloc` to `capacity*2 * sizeof *list`
bytes, then `capacity *= 2`.  The old cells are kept as far as the new buffer
reaches; the cells added are indeterminate. -/
def _grow_vector (vt : vt_Vector) : vt_Vector :=
  let bytes := (vt.capacity * 2 % SIZE_MOD) * vt_ELEMENT_BYTES % SIZE_MOD
  let cells := bytes / vt_ELEMENT_BYTES
  { vt with
    list := (vt.list ++ List.replicate (cells - vt.list.length) none).take cells,
    capacity := vt.capacity * 2 % SIZE_MOD }

/-- The function `vt_isempty`. -/
def vt_isempty (vt : vt_Vector) : Bool :=
  vt.size == 0

/-- The function `vt_getsize`. -/
def vt_getsize (vt : vt_Vector) : Nat :=
  vt.size

/-- The function `vt_add`. -/
def vt_add (vt : vt_Vector) (elem : Elem) : Except Fault vt_Vector := do
  let vt := if vt.size = vt.capacity then _grow_vector vt else vt
  let vt ← vt.write vt.index elem
  let vt := { vt with index := (vt.index + 1) % SIZE_MOD }
  pure { vt with size := (vt.size + 1) % SIZE_MOD }

/-- The function `vt_add_at`: nothing when `pos > size`. -/
def vt_add_at (vt : vt_Vector) (elem : Elem) (pos : Nat) : Except Fault vt_Vector := do
  if pos ≤ vt.size then
    let vt := if vt.size = vt.capacity then _grow_vector vt else vt
    let vt ← vt.write pos elem
    pure { vt with size := (vt.size + 1) % SIZE_MOD }
  else
    pure vt

/-- The function `vt_get`: null on an empty vector, otherwise
`list[index-1]`. -/
def vt_get (vt : vt_Vector) : Except Fault Elem :=
  if vt_isempty vt then pure 0
  else vt.read ((vt.index + SIZE_MOD - 1) % SIZE_MOD)

/-- The function `vt_get_at`: `list[pos]` when `pos < size`, otherwise null. -/
def vt_get_at (vt : vt_Vector) (pos : Nat) : Except Fault Elem :=
  if pos < vt.size then vt.read pos else pure 0

/-- The function `vt_remove`.  The argument `dtor` tells whether a destructor
is supplied.  With one, `dtor(list[index-1])`; without, `free(list[index-1]);
list[index-1] = NULL;`.  There is no emptiness test and neither `size` nor
`index` is written. -/
def vt_remove (vt : vt_Vector) (dtor : Bool) : Except Fault vt_Vector := do
  let i := (vt.index + SIZE_MOD - 1) % SIZE_MOD
  let _ ← vt.read i
  if dtor then pure vt
  else vt.write i 0

/-- The type `vt_ElemCompare`. -/
abbrev vt_ElemCompare := Elem → Elem → Int

/-- Memory behind the element references: `deref e i` is the value of
`((vt_Vector_Element*)e)[i]`.  The vector does not own that memory; `_merge`
reads it. -/
abbrev vt_Deref := Elem → Nat → Except Fault Elem

/-- State of the loops of the `_merge` of `vt.c`: the counters `i`, `j`, `k`
and the buffer. -/
structure vt_MergeState where
  /-- The counter `i`. -/
  i : Nat
  /-- The counter `j`. -/
  j : Nat
  /-- The counter `k`. -/
  k : Nat
  /-- The buffer `*list`. -/
  vt : vt_Vector

/-- First loop of the `_merge` of `vt.c`: `for (...; i < mid && j < high; ++k)
{ if (comp(l1[i], l2[j]) < 1) (*list)[k] = l1[i++]; else (*list)[k] = l2[j++]; }`. -/
def vt_merge_both (deref : vt_Deref) (comp : vt_ElemCompare) (l1 l2 : Elem) (mid high : Nat) :
    Nat → vt_MergeState → Except Fault vt_MergeState
  | 0, _ => .error .fuel
  | fuel + 1, s =>
    if s.i < mid ∧ s.j < high then do
      let a ← deref l1 s.i
      let b ← deref l2 s.j
      if comp a b < 1 then
        let vt ← s.vt.write s.k a
        vt_merge_both deref comp l1 l2 mid high fuel { s with i := s.i + 1, k := s.k + 1, vt := vt }
      else
        let vt ← s.vt.write s.k b
        vt_merge_both deref comp l1 l2 mid high fuel { s with j := s.j + 1, k := s.k + 1, vt := vt }
    else
      pure s

/-- Second loop of the `_merge` of `vt.c`: `while (i < mid) (*list)[k++] = l1[i++];`. -/
def vt_merge_left (deref : vt_Deref) (l1 : Elem) (mid : Nat) :
    Nat → vt_MergeState → Except Fault vt_MergeState
  | 0, _ => .error .fuel
  | fuel + 1, s =>
    if s.i < mid then do
      let a ← deref l1 s.i
      let vt ← s.vt.write s.k a
      vt_merge_left deref l1 mid fuel { s with i := s.i + 1, k := s.k + 1, vt := vt }
    else
      pure s

/-- Third loop of the `_merge` of `vt.c`: `while (j < high) (*list)[k++] = l2[j++];`. -/
def vt_merge_right (deref : vt_Deref) (l2 : Elem) (high : Nat) :
    Nat → vt_MergeState → Except Fault vt_MergeState
  | 0, _ => .error .fuel
  | fuel + 1, s =>
    if s.j < high then do
      let b ← deref l2 s.j
      let vt ← s.vt.write s.k b
      vt_merge_right deref l2 high fuel { s with j := s.j + 1, k := s.k + 1, vt := vt }
    else
      pure s

/-- The static function `_merge` of `vt.c` (the name `_merge` is taken by the
function of `ll.c`): `l1 = (*list)[low]; l2 = (*list)[mid];` followed by the
three loops.  Each loop runs at most `mid + high` times. -/
def vt_merge (deref : vt_Deref) (comp : vt_ElemCompare) (vt : vt_Vector) (low mid high : Nat) :
    Except Fault vt_Vector := do
  let l1 ← vt.read low
  let l2 ← vt.read mid
  let s : vt_MergeState := { i := 0, j := 0, k := 0, vt := vt }
  let s ← vt_merge_both deref comp l1 l2 mid high (mid + high + 1) s
  let s ← vt_merge_left deref l1 mid (mid + high + 1) s
  let s ← vt_merge_right deref l2 high (mid + high + 1) s
  pure s.vt

/-- The static function `_sort` of `vt.c`: `if (low < high) { mid =
(high - low) / 2; _sort(list, low, mid+1, comp); _sort(list, mid+1, high,
comp); _merge(&list, low, mid+1, high, comp); }`.  The first argument bounds
the depth of the recursion. -/
def _sort (deref : vt_Deref) (comp : vt_ElemCompare) :
    Nat → vt_Vector → Nat → Nat → Except Fault vt_Vector
  | 0, _, _, _ => .error .fuel
  | fuel + 1, vt, low, high =>
    if low < high then do
      let mid := (high - low) / 2
      let vt ← _sort deref comp fuel vt low (mid + 1)
      let vt ← _sort deref comp fuel vt (mid + 1) high
      vt_merge deref comp vt low (mid + 1) high
    else
      pure vt

/-- The function `vt_sort`: `_sort(vt->list, 0, vt->size, comp)`. -/
def vt_sort (fuel : Nat) (deref : vt_Deref) (comp : vt_ElemCompare) (vt : vt_Vector) :
    Except Fault vt_Vector :=
  _sort deref comp fuel vt 0 vt.size

/-- Apply `vt_add` for each element of a list, in order, starting from
`vt_init`. -/
def vt_build (xs : List Elem) : Except Fault vt_Vector :=
  xs.foldlM vt_add vt_init

/-- A call of one of the two adding operations. -/
inductive vt_Call where
  /-- The call `vt_add(vt, elem)`. -/
  | add (elem : Elem)
  /-- The call `vt_add_at(vt, elem, pos)`. -/
  | add_at (elem : Elem) (pos : Nat)

/-- Perform one call. -/
def vt_Call.run (vt : vt_Vector) : vt_Call → Except Fault vt_Vector
  | .add elem => vt_add vt elem
  | .add_at elem pos => vt_add_at vt elem pos

/-- Perform a sequence of calls, in order, starting from `vt_init`. -/
def vt_run (calls : List vt_Call) : Except Fault vt_Vector :=
  calls.foldlM vt_Call.run vt_init

/-- The vector `vt` holds exactly the elements `ys`, in order: both counters
equal the number of elements, the buffer has `capacity` cells, and the first
cells of the buffer are the elements.  The capacity is not zero. -/
def vt_Holds (vt : vt_Vector) (ys : List Elem) : Prop :=
  vt.size = ys.length ∧ vt.index = ys.length ∧ vt.list.length = vt.capacity
    ∧ ys.length ≤ vt.capacity ∧ vt.list.take ys.length = ys.map some ∧ 0 < vt.capacity

/-- Bounds on the counters of a vector: `index <= size <= capacity`, the
capacity is the initial capacity times a power of two, and the buffer has
`capacity` cells. -/
def vt_Bounds (vt : vt_Vector) : Prop :=
  vt.index ≤ vt.size ∧ vt.size ≤ vt.capacity
    ∧ (∃ k : Nat, vt.capacity = vt_INITIAL_VECTOR_CAPACITY * 2 ^ k)
    ∧ vt.list.length = vt.capacity

/-! ## Size bookkeeping (C1, C2) -/

/-- C1 (code bug): the size counter is not the number of inserts minus the
number of deletes.  On the doubly-linked list built by two `ll_insert` calls,
each of `ll_delete`, `ll_delete_atend`, `ll_delete_before` and
`ll_delete_after` removes one node, so one forward traversal meets one
element, while `ll_getlinkedlistsize` still returns 2. -/
theorem C1_delete_keeps_size_counter :
    (do let ll ← ll_build ll_DOUBLY [2, 1]
        let ll ← ll_delete 4 ll 1
        pure (ll_getlinkedlistsize ll, ← ll_elements ll)) = Except.ok (2, [2])
    ∧ (do let ll ← ll_build ll_DOUBLY [2, 1]
          let ll ← ll_delete_atend 4 ll
          pure (ll_getlinkedlistsize ll, ← ll_elements ll)) = Except.ok (2, [2])
    ∧ (do let ll ← ll_build ll_DOUBLY [2, 1]
          let ll ← ll_delete_before 4 ll 1
          pure (ll_getlinkedlistsize ll, ← ll_elements ll)) = Except.ok (2, [2])
    ∧ (do let ll ← ll_build ll_DOUBLY [2, 1]
          let ll ← ll_delete_after 4 ll 2
          pure (ll_getlinkedlistsize ll, ← ll_elements ll)) = Except.ok (2, [2]) :=
  ⟨rfl, rfl, rfl, rfl⟩

/-- C2 (code bug): emptiness and a zero size counter do not coincide.  After
two `ll_insert` calls, `ll_delete` of the second element and
`ll_delete_elementatpos` at position 0 on a doubly-linked list,
`ll_islinkedlistempty` returns true and no element is left, while
`ll_getlinkedlistsize` returns 1. -/
theorem C2_empty_list_with_size_one :
    (do let ll ← ll_build ll_DOUBLY [2, 1]
        let ll ← ll_delete 4 ll 1
        let ll ← ll_delete_elementatpos ll 0
        pure (← ll_islinkedlistempty ll, ll_getlinkedlistsize ll, ← ll_elements ll))
      = Except.ok (true, 1, []) :=
  rfl

/-! ## Reversal (C3, C4) -/

/-- C3 (code bug): reversing twice does not give back the list.  On the
circular list [1, 2] the first `ll_reverse` leaves a list that tests empty, the
second one therefore does nothing, and the forward element sequence is empty
while the size counter is 2.  On the doubly-linked list [1, 2] the two calls
leave `head->next->next == head`, so the walk from the head sentinel cycles
without meeting the tail sentinel. -/
theorem C3_reverse_twice_loses_elements :
    (do let ll ← ll_build ll_CIRCLY [1, 2]
        let ll ← ll_reverse 4 ll
        let ll ← ll_reverse 4 ll
        pure (← ll_elements ll, ll_getlinkedlistsize ll)) = Except.ok ([], 2)
    ∧ (do let ll ← ll_build ll_DOUBLY [1, 2]
          let ll ← ll_reverse 4 ll
          let ll ← ll_reverse 4 ll
          let first ← ll.next ll.head
          let second ← ll.next first
          pure (decide (second = ll.head), decide (first = ll.tail))) = Except.ok (true, false) :=
  ⟨rfl, rfl⟩

/-- C4 (code bug): `ll_reverse` does not produce the reversed sequence.  On
the circular list [1, 2, 3] the new head sentinel points straight at the new
tail sentinel: the forward sequence is empty and the list tests empty, with
size counter 3.  On the doubly-linked list [1, 2, 3] the new head sentinel
points at itself.  On the singly-linked list [1, 2, 3] the loop reads through
the null link of the tail sentinel. -/
theorem C4_reverse_is_not_reversal :
    (do let ll ← ll_build ll_CIRCLY [1, 2, 3]
        let ll ← ll_reverse 8 ll
        pure (← ll_elements ll, ← ll_islinkedlistempty ll, ll_getlinkedlistsize ll))
      = Except.ok ([], true, 3)
    ∧ (do let ll ← ll_build ll_DOUBLY [1, 2, 3]
          let ll ← ll_reverse 8 ll
          let first ← ll.next ll.head
          pure (decide (first = ll.head), decide (ll.head = ll.tail))) = Except.ok (true, false)
    ∧ (do let ll ← ll_build ll_SINGLY [1, 2, 3]
          ll_reverse 8 ll) = Except.error Fault.invalid :=
  ⟨rfl, rfl, rfl⟩

/-! ## Merge sort (C5 to C8) -/

/-- The numeric comparator is a total preorder: any two elements are
comparable and the relation `comp a b <= 0` is transitive. -/
theorem cmp_value_total_preorder :
    (∀ a b, cmp_value a b ≤ 0 ∨ cmp_value b a ≤ 0)
    ∧ (∀ a b c, cmp_value a b ≤ 0 → cmp_value b c ≤ 0 → cmp_value a c ≤ 0) := by
  refine ⟨fun a b => ?_, fun a b c h1 h2 => ?_⟩ <;> simp only [cmp_value] at * <;> omega

/-- C5 (code bug): the result of `ll_sort(list, 0, n, comp)` need not be
non-decreasing.  On the doubly-linked list [2, 1] with n = 2 the list is
returned as it was, whatever the comparator, and under the numeric comparator
`comp(2, 1)` is positive. -/
theorem C5_sort_leaves_pair_unsorted :
    (∀ comp : ll_ElemCompare,
      (do let ll ← ll_build ll_DOUBLY [2, 1]
          let ll ← ll_sort 8 ll 0 2 comp
          ll_elements ll) = Except.ok [2, 1])
    ∧ 0 < cmp_value 2 1 :=
  ⟨fun _ => rfl, by decide⟩

/-- C6 (code bug): `ll_sort` writes outside the range and loses elements.  On
the doubly-linked list [5, 6, 7], `ll_sort(list, 1, 2, comp)` yields
[6, 0, 7]: position 0, outside [1, 2), no longer holds 5, the element 5 is
gone, and position 1 holds the null reference, so the result is not a
permutation of the input. -/
theorem C6_sort_overwrites_outside_range :
    (do let ll ← ll_build ll_DOUBLY [5, 6, 7]
        let ll ← ll_sort 8 ll 1 2 cmp_value
        ll_elements ll) = Except.ok [6, 0, 7]
    ∧ ¬ List.Perm [6, 0, 7] [5, 6, 7] :=
  ⟨rfl, by decide⟩

/-- C7 (code bug): `ll_sort` is not stable.  On the doubly-linked list
[1, 2, 3] with a comparator under which all elements compare equal,
`ll_sort(list, 0, 3, comp)` yields [3, 0, 0]: the elements comparing equal to
1 were 1, 2, 3 in this order before the sort and are 3, null, null after
it. -/
theorem C7_sort_not_stable :
    (do let ll ← ll_build ll_DOUBLY [1, 2, 3]
        let ll ← ll_sort 8 ll 0 3 cmp_equal
        ll_elements ll) = Except.ok [3, 0, 0]
    ∧ [3, 0, 0].filter (fun y => decide (cmp_equal 1 y = 0))
        ≠ [1, 2, 3].filter (fun y => decide (cmp_equal 1 y = 0)) :=
  ⟨rfl, by decide⟩

/-- C8 (code bug): `ll_sort` is not idempotent.  On the doubly-linked list
[9, 2, 3] under the numeric comparator the first `ll_sort(list, 0, 3, comp)`
yields [0, 3, 0] and the second one yields [0, 0, 0]. -/
theorem C8_sort_not_idempotent :
    (do let ll ← ll_build ll_DOUBLY [9, 2, 3]
        let ll ← ll_sort 8 ll 0 3 cmp_value
        ll_elements ll) = Except.ok [0, 3, 0]
    ∧ (do let ll ← ll_build ll_DOUBLY [9, 2, 3]
          let ll ← ll_sort 8 ll 0 3 cmp_value
          let ll ← ll_sort 8 ll 0 3 cmp_value
          ll_elements ll) = Except.ok [0, 0, 0] :=
  ⟨rfl, rfl⟩

/-! ## Identity-relative and positional round trips (C9, C10) -/

/-- C9 (code bug): `ll_insert_after` does not find an anchor held by the last
node.  On the doubly-linked and on the circular list [1],
`ll_insert_after(list, 1, 2)` returns `NOTFOUND`, the list is still [1], and
`ll_get_after(list, 1)` returns null. -/
theorem C9_insert_after_last_not_found :
    (do let ll ← ll_build ll_DOUBLY [1]
        let (ll, rc) ← ll_insert_after 4 ll 1 2
        pure (rc, ← ll_elements ll, ← ll_get_after 4 ll 1)) = Except.ok (NOTFOUND, [1], 0)
    ∧ (do let ll ← ll_build ll_CIRCLY [1]
          let (ll, rc) ← ll_insert_after 4 ll 1 2
          pure (rc, ← ll_elements ll, ← ll_get_after 4 ll 1)) = Except.ok (NOTFOUND, [1], 0) :=
  ⟨rfl, rfl⟩

/-- C10 (code bug): for i = 1 the positional delete and read are off by one.
On the doubly-linked list [1, 2, 3], `ll_delete_elementatpos(list, 1, dtor)`
removes the element at position 0, leaving [2, 3], and
`ll_get_elementatpos(list, 1)` then returns null, the payload of the head
sentinel, where the claim names 3. -/
theorem C10_delete_then_get_at_one :
    (do let ll ← ll_build ll_DOUBLY [1, 2, 3]
        let ll ← ll_delete_elementatpos ll 1
        pure (← ll_elements ll, ← ll_get_elementatpos ll 1)) = Except.ok ([2, 3], 0) :=
  rfl

/-! ## Reading and writing the node store -/

/-- Binding a returned value runs the continuation on it. -/
theorem ok_bind {α β : Type} (a : α) (f : α → Except Fault β) :
    ((Except.ok a : Except Fault α) >>= f) = f a := rfl

/-- The inputs written out are the ones the public operations build. -/
theorem build_123 :
    ll_build ll_DOUBLY [1, 2, 3] = .ok doubly_123
    ∧ ll_build ll_CIRCLY [1, 2, 3] = .ok circly_123 :=
  ⟨rfl, rfl⟩

/-- A read succeeds exactly on a non-null address whose cell holds a node. -/
theorem node_ok_iff {ll : ll_LinkedList} {p : Nat} {n : Node} :
    ll.node p = .ok n ↔ 0 < p ∧ ll.mem.get? (p - 1) = some (some n) := by
  rcases p with _ | q
  · simp [ll_LinkedList.node]
  · simp only [ll_LinkedList.node, Nat.succ_eq_add_one, Nat.add_sub_cancel, Nat.succ_pos, true_and]
    constructor
    · intro h
      split at h
      · rename_i m heq
        simp only [Except.ok.injEq] at h
        subst h
        exact heq
      · simp at h
    · intro h
      rw [h]

/-- An allocated address lies within the store. -/
theorem node_le {ll : ll_LinkedList} {p : Nat} {n : Node} (h : ll.node p = .ok n) :
    0 < p ∧ p ≤ ll.mem.length := by
  obtain ⟨hp, hg⟩ := node_ok_iff.1 h
  obtain ⟨hlt, _⟩ := List.get?_eq_some.1 hg
  exact ⟨hp, by omega⟩

/-- Reading after a write to an allocated node. -/
theorem node_store {ll : ll_LinkedList} {p : Nat} {n0 : Node} (h : ll.node p = .ok n0)
    (n : Node) (r : Nat) :
    (ll.store p n).node r = if r = p then .ok n else ll.node r := by
  obtain ⟨hp, hle⟩ := node_le h
  by_cases hr : r = p
  · subst hr
    rw [if_pos rfl, node_ok_iff]
    refine ⟨hp, ?_⟩
    have : r - 1 < ll.mem.length := by omega
    simp [ll_LinkedList.store, List.getElem?_set, this]
  · rw [if_neg hr]
    rcases r with _ | q
    · simp [ll_LinkedList.node]
    · have : p - 1 ≠ q := by omega
      simp [ll_LinkedList.node, ll_LinkedList.store, List.getElem?_set, this]

/-- Allocation leaves the allocated nodes as they are. -/
theorem node_alloc_old {ll : ll_LinkedList} {p : Nat} {n : Node} (e : Elem)
    (h : ll.node p = .ok n) : (_init_node ll e).1.node p = .ok n := by
  obtain ⟨hp, hle⟩ := node_le h
  obtain ⟨_, hg⟩ := node_ok_iff.1 h
  rw [node_ok_iff]
  refine ⟨hp, ?_⟩
  have : p - 1 < ll.mem.length := by omega
  simp only [_init_node]
  rw [List.get?_eq_getElem?] at hg ⊢
  rw [List.getElem?_append_left this]
  exact hg

/-- The node handed out by an allocation. -/
theorem node_alloc_new (ll : ll_LinkedList) (e : Elem) :
    (_init_node ll e).1.node (ll.mem.length + 1) = .ok { elem := e, next := 0, prev := 0 } := by
  rw [node_ok_iff]
  simp [_init_node]

/-- The statement `p->next = q` on an allocated node. -/
theorem setNext_ok {ll : ll_LinkedList} {p : Nat} {n : Node} (h : ll.node p = .ok n) (q : Ptr) :
    ll.setNext p q = .ok (ll.store p { n with next := q }) := by
  simp [ll_LinkedList.setNext, h, ok_bind, pure, Except.pure]

/-- The statement `p->prev = q` on an allocated node. -/
theorem setPrev_ok {ll : ll_LinkedList} {p : Nat} {n : Node} (h : ll.node p = .ok n) (q : Ptr) :
    ll.setPrev p q = .ok (ll.store p { n with prev := q }) := by
  simp [ll_LinkedList.setPrev, h, ok_bind, pure, Except.pure]

/-- The statement `p->elem = e` on an allocated node. -/
theorem setElem_ok {ll : ll_LinkedList} {p : Nat} {n : Node} (h : ll.node p = .ok n) (e : Elem) :
    ll.setElem p e = .ok (ll.store p { n with elem := e }) := by
  simp [ll_LinkedList.setElem, h, ok_bind, pure, Except.pure]

/-- The expression `p->next` on an allocated node. -/
theorem next_ok {ll : ll_LinkedList} {p : Nat} {n : Node} (h : ll.node p = .ok n) :
    ll.next p = .ok n.next := by
  simp [ll_LinkedList.next, h, ok_bind, pure, Except.pure]

/-- The expression `p->elem` on an allocated node. -/
theorem elem_ok {ll : ll_LinkedList} {p : Nat} {n : Node} (h : ll.node p = .ok n) :
    ll.elem p = .ok n.elem := by
  simp [ll_LinkedList.elem, h, ok_bind, pure, Except.pure]

/-- The payload of an allocated node. -/
theorem payload_ok {ll : ll_LinkedList} {p : Nat} {n : Node} (h : ll.node p = .ok n) :
    payload ll p = n.elem := by
  simp [payload, h]

/-! ## Chains and well-formed lists -/

/-- Every node of a chain is allocated. -/
theorem seg_alloc {ll : ll_LinkedList} : ∀ {ps : List Nat} {p : Nat}, Seg ll p ps →
    ∀ q ∈ ps, ∃ n, ll.node q = .ok n
  | [], _, _, q, hq => by simp at hq
  | r :: rs, p, h, q, hq => by
    obtain ⟨_, n, hn, hrest⟩ := h
    rcases List.mem_cons.1 hq with rfl | hq
    · exact ⟨n, hn⟩
    · exact seg_alloc hrest q hq

/-- A chain is kept by a change of the store that keeps the tail sentinel and
the links of the nodes of the chain. -/
theorem seg_frame {ll ll' : ll_LinkedList} (ht : ll'.tail = ll.tail) :
    ∀ {ps : List Nat} {p : Nat},
      (∀ q ∈ ps, ∀ n, ll.node q = .ok n → ∃ n', ll'.node q = .ok n' ∧ n'.next = n.next) →
      Seg ll p ps → Seg ll' p ps
  | [], p, _, h => by
    simp only [Seg] at h ⊢
    rw [ht]; exact h
  | r :: rs, p, hf, h => by
    obtain ⟨hp, n, hn, hrest⟩ := h
    obtain ⟨n', hn', hnext⟩ := hf r (List.mem_cons_self _ _) n hn
    refine ⟨hp, n', hn', ?_⟩
    rw [hnext]
    exact seg_frame ht (fun q hq => hf q (List.mem_cons_of_mem _ hq)) hrest

/-- The forward traversal of a chain returns the payloads of its nodes. -/
theorem walk_seg {ll : ll_LinkedList} : ∀ {ps : List Nat} {p : Nat} (fuel : Nat),
    Seg ll p ps → ll.tail ∉ ps → ps.length < fuel →
    walk ll fuel p = .ok (ps.map (payload ll))
  | [], p, fuel, h, _, hf => by
    simp only [Seg] at h
    obtain ⟨f, rfl⟩ : ∃ f, fuel = f + 1 := ⟨fuel - 1, by simp at hf; omega⟩
    simp [walk, h, pure, Except.pure]
  | r :: rs, p, fuel, h, ht, hf => by
    obtain ⟨hp, n, hn, hrest⟩ := h
    obtain ⟨f, rfl⟩ : ∃ f, fuel = f + 1 := ⟨fuel - 1, by simp at hf; omega⟩
    have hne : p ≠ ll.tail := by
      rintro rfl
      exact ht (by rw [hp]; exact List.mem_cons_self _ _)
    have hrec := walk_seg f hrest (fun hmem => ht (List.mem_cons_of_mem _ hmem))
      (by simp at hf; omega)
    subst hp
    simp [walk, hne, hn, ok_bind, hrec, pure, Except.pure, payload_ok hn]

/-- Distinct addresses within a store of `n` cells number at most `n`. -/
theorem nodup_length_le (ps : List Nat) (n : Nat) (hnd : ps.Nodup)
    (hb : ∀ q ∈ ps, 0 < q ∧ q ≤ n) : ps.length ≤ n := by
  have hsub : ps.toFinset ⊆ Finset.Icc 1 n := by
    intro q hq
    have := hb q (List.mem_toFinset.1 hq)
    simp only [Finset.mem_Icc]
    omega
  have := Finset.card_le_card hsub
  rw [List.toFinset_card_of_nodup hnd, Nat.card_Icc] at this
  omega

/-- The forward element sequence of a well-formed list is the payloads of its
real nodes. -/
theorem elements_wf {ll : ll_LinkedList} {ps : List Nat} (h : WellFormed ll ps) :
    ll_elements ll = .ok (ps.map (payload ll)) := by
  obtain ⟨hseg, hnd, ht, _⟩ := h
  have halloc := seg_alloc hseg
  obtain ⟨_, hN, hh, hrest⟩ := hseg
  have hlen : (ll.head :: ps).length ≤ ll.mem.length :=
    nodup_length_le _ _ hnd (fun q hq => by
      obtain ⟨n, hn⟩ := halloc q hq
      exact node_le hn)
  simp only [ll_elements, next_ok hh, ok_bind]
  exact walk_seg _ hrest (fun hmem => ht (List.mem_cons_of_mem _ hmem))
    (by simp at hlen; omega)

/-! ## Front insertion on the store -/

/-- Reading the overwritten node. -/
theorem Upd.node_eq {ll ll' : ll_LinkedList} {p : Nat} {n : Node} (u : Upd ll ll' p n) :
    ll'.node p = .ok n := by
  rw [u.2.2.2.2.2 p, if_pos rfl]

/-- Reading any other node after an overwrite. -/
theorem Upd.node_ne {ll ll' : ll_LinkedList} {p r : Nat} {n : Node} (u : Upd ll ll' p n)
    (hr : r ≠ p) : ll'.node r = ll.node r := by
  rw [u.2.2.2.2.2 r, if_neg hr]

/-- A write to an allocated node is an overwrite of that node. -/
theorem store_upd {ll : ll_LinkedList} {p : Nat} {n0 : Node} (h : ll.node p = .ok n0) (n : Node) :
    Upd ll (ll.store p n) p n :=
  ⟨rfl, rfl, rfl, rfl, by simp [ll_LinkedList.store], fun r => node_store h n r⟩

/-- The statement `p->next = q` as an overwrite. -/
theorem setNext_upd {ll : ll_LinkedList} {p : Nat} {n : Node} (h : ll.node p = .ok n) (q : Ptr) :
    ∃ ll', ll.setNext p q = .ok ll' ∧ Upd ll ll' p { n with next := q } :=
  ⟨_, setNext_ok h q, store_upd h _⟩

/-- The statement `p->prev = q` as an overwrite. -/
theorem setPrev_upd {ll : ll_LinkedList} {p : Nat} {n : Node} (h : ll.node p = .ok n) (q : Ptr) :
    ∃ ll', ll.setPrev p q = .ok ll' ∧ Upd ll ll' p { n with prev := q } :=
  ⟨_, setPrev_ok h q, store_upd h _⟩

/-- The statement `p->elem = e` as an overwrite. -/
theorem setElem_upd {ll : ll_LinkedList} {p : Nat} {n : Node} (h : ll.node p = .ok n) (e : Elem) :
    ∃ ll', ll.setElem p e = .ok ll' ∧ Upd ll ll' p { n with elem := e } :=
  ⟨_, setElem_ok h e, store_upd h _⟩

/-- The size counter is not part of the node store. -/
theorem node_incSize (ll : ll_LinkedList) (p : Nat) : ll.incSize.node p = ll.node p := rfl

/-- What `ll_insert` does to the store of a list whose head sentinel and first
link are allocated: the new node sits at the next free address, between the
head sentinel and the old first link; the other nodes keep link and payload. -/
theorem insert_spec {ll : ll_LinkedList} {hN fN : Node} (e : Elem)
    (hh : ll.node ll.head = .ok hN) (hf : ll.node hN.next = .ok fN) (hfh : hN.next ≠ ll.head) :
    ∃ ll', ll_insert ll e = .ok (ll', SUCCESS)
      ∧ ll'.head = ll.head ∧ ll'.tail = ll.tail ∧ ll'.type = ll.type
      ∧ ll'.size = (ll.size + 1) % SIZE_MOD
      ∧ (∃ m, ll'.node ll.head = .ok m ∧ m.next = ll.mem.length + 1)
      ∧ (∃ m, ll'.node (ll.mem.length + 1) = .ok m ∧ m.next = hN.next ∧ m.elem = e)
      ∧ (∀ (r : Nat) (n : Node), r ≠ ll.head → ll.node r = .ok n →
          ∃ n', ll'.node r = .ok n' ∧ n'.next = n.next ∧ n'.elem = n.elem) := by
  have hold : ∀ (r : Nat) (n : Node), ll.node r = .ok n → r ≠ ll.mem.length + 1 := by
    intro r n hr h
    have := (node_le hr).2
    rw [h] at this; omega
  have hne := hold _ _ hh
  have hfne := hold _ _ hf
  have a_new := node_alloc_new ll e
  have a_old : ∀ (r : Nat) (n : Node), ll.node r = .ok n → (_init_node ll e).1.node r = .ok n :=
    fun r n h => node_alloc_old e h
  obtain ⟨B, hB, uB⟩ := setElem_upd a_new e
  have hBh : B.head = ll.head := uB.1
  have b_head : B.node ll.head = .ok hN := (uB.node_ne hne).trans (a_old _ _ hh)
  obtain ⟨C, hC, uC⟩ := setNext_upd uB.node_eq hN.next
  have hCh : C.head = ll.head := uC.1.trans hBh
  have c_head : C.node ll.head = .ok hN := (uC.node_ne hne).trans b_head
  have c_old : ∀ (r : Nat) (n : Node), ll.node r = .ok n → C.node r = .ok n := fun r n h =>
    (uC.node_ne (hold r n h)).trans ((uB.node_ne (hold r n h)).trans (a_old r n h))
  cases hty : ll.type with
  | ll_DOUBLY =>
    obtain ⟨D, hD, uD⟩ := setPrev_upd uC.node_eq ll.head
    have hDh : D.head = ll.head := uD.1.trans hCh
    have d_old : ∀ (r : Nat) (n : Node), ll.node r = .ok n → D.node r = .ok n := fun r n h =>
      (uD.node_ne (hold r n h)).trans (c_old r n h)
    obtain ⟨E, hE, uE⟩ := setPrev_upd (d_old _ _ hf) (ll.mem.length + 1)
    have hEh : E.head = ll.head := uE.1.trans hDh
    have e_head : E.node ll.head = .ok hN := (uE.node_ne (Ne.symm hfh)).trans (d_old _ _ hh)
    obtain ⟨F, hF, uF⟩ := setNext_upd e_head (ll.mem.length + 1)
    refine ⟨F.incSize, ?_, uF.1.trans hEh,
      uF.2.1.trans (uE.2.1.trans (uD.2.1.trans (uC.2.1.trans uB.2.1))),
      (uF.2.2.1.trans (uE.2.2.1.trans (uD.2.2.1.trans (uC.2.2.1.trans uB.2.2.1)))).trans hty, ?_,
      ⟨_, uF.node_eq, rfl⟩, ⟨{ elem := e, next := hN.next, prev := ll.head }, ?_, rfl, rfl⟩, ?_⟩
    · unfold ll_insert
      rw [hty]
      show (do
        let ll1 ← (_init_node ll e).1.setElem (ll.mem.length + 1) e
        let hn ← ll1.next ll1.head
        let ll2 ← ll1.setNext (ll.mem.length + 1) hn
        let ll3 ← ll2.setPrev (ll.mem.length + 1) ll2.head
        let hn ← ll3.next ll3.head
        let ll4 ← ll3.setPrev hn (ll.mem.length + 1)
        let ll5 ← ll4.setNext ll4.head (ll.mem.length + 1)
        pure (ll5.incSize, SUCCESS) : Except Fault (ll_LinkedList × Int)) = _
      rw [hB, ok_bind, hBh, next_ok b_head, ok_bind, hC, ok_bind, hCh, hD, ok_bind, hDh,
        next_ok (d_old _ _ hh), ok_bind, hE, ok_bind, hEh, hF, ok_bind]
      rfl
    · show (F.size + 1) % SIZE_MOD = _
      rw [uF.2.2.2.1, uE.2.2.2.1, uD.2.2.2.1, uC.2.2.2.1, uB.2.2.2.1]
      rfl
    · rw [node_incSize, uF.node_ne (Ne.symm hne), uE.node_ne (Ne.symm hfne)]
      exact uD.node_eq
    · intro r n hr hn
      rw [node_incSize, uF.node_ne hr]
      by_cases hrf : r = hN.next
      · subst hrf
        rw [uE.node_eq]
        rw [hf] at hn
        cases hn
        exact ⟨_, rfl, rfl, rfl⟩
      · rw [uE.node_ne hrf, d_old r n hn]
        exact ⟨_, rfl, rfl, rfl⟩
  | ll_SINGLY =>
    obtain ⟨F, hF, uF⟩ := setNext_upd c_head (ll.mem.length + 1)
    refine ⟨F.incSize, ?_, uF.1.trans hCh, uF.2.1.trans (uC.2.1.trans uB.2.1),
      (uF.2.2.1.trans (uC.2.2.1.trans uB.2.2.1)).trans hty, ?_,
      ⟨_, uF.node_eq, rfl⟩, ⟨{ elem := e, next := hN.next, prev := 0 }, ?_, rfl, rfl⟩, ?_⟩
    · unfold ll_insert
      rw [hty]
      show (do
        let ll1 ← (_init_node ll e).1.setElem (ll.mem.length + 1) e
        let hn ← ll1.next ll1.head
        let ll2 ← ll1.setNext (ll.mem.length + 1) hn
        let ll3 ← ll2.setNext ll2.head (ll.mem.length + 1)
        pure (ll3.incSize, SUCCESS) : Except Fault (ll_LinkedList × Int)) = _
      rw [hB, ok_bind, hBh, next_ok b_head, ok_bind, hC, ok_bind, hCh, hF, ok_bind]
      rfl
    · show (F.size + 1) % SIZE_MOD = _
      rw [uF.2.2.2.1, uC.2.2.2.1, uB.2.2.2.1]
      rfl
    · rw [node_incSize, uF.node_ne (Ne.symm hne)]
      exact uC.node_eq
    · intro r n hr hn
      rw [node_incSize, uF.node_ne hr, c_old r n hn]
      exact ⟨_, rfl, rfl, rfl⟩
  | ll_CIRCLY =>
    obtain ⟨F, hF, uF⟩ := setNext_upd c_head (ll.mem.length + 1)
    refine ⟨F.incSize, ?_, uF.1.trans hCh, uF.2.1.trans (uC.2.1.trans uB.2.1),
      (uF.2.2.1.trans (uC.2.2.1.trans uB.2.2.1)).trans hty, ?_,
      ⟨_, uF.node_eq, rfl⟩, ⟨{ elem := e, next := hN.next, prev := 0 }, ?_, rfl, rfl⟩, ?_⟩
    · unfold ll_insert
      rw [hty]
      show (do
        let ll1 ← (_init_node ll e).1.setElem (ll.mem.length + 1) e
        let hn ← ll1.next ll1.head
        let ll2 ← ll1.setNext (ll.mem.length + 1) hn
        let ll3 ← ll2.setNext ll2.head (ll.mem.length + 1)
        pure (ll3.incSize, SUCCESS) : Except Fault (ll_LinkedList × Int)) = _
      rw [hB, ok_bind, hBh, next_ok b_head, ok_bind, hC, ok_bind, hCh, hF, ok_bind]
      rfl
    · show (F.size + 1) % SIZE_MOD = _
      rw [uF.2.2.2.1, uC.2.2.2.1, uB.2.2.2.1]
      rfl
    · rw [node_incSize, uF.node_ne (Ne.symm hne)]
      exact uC.node_eq
    · intro r n hr hn
      rw [node_incSize, uF.node_ne hr, c_old r n hn]
      exact ⟨_, rfl, rfl, rfl⟩

/-- The first link of a chain is allocated when the tail sentinel is. -/
theorem seg_first {ll : ll_LinkedList} {ps : List Nat} {p : Nat} {t : Node}
    (h : Seg ll p ps) (ht : ll.node ll.tail = .ok t) :
    (∃ n, ll.node p = .ok n) ∧ (p = ll.tail ∨ p ∈ ps) := by
  cases ps with
  | nil =>
    simp only [Seg] at h
    subst h
    exact ⟨⟨t, ht⟩, Or.inl rfl⟩
  | cons q qs =>
    obtain ⟨hp, n, hn, _⟩ := h
    subst hp
    exact ⟨⟨n, hn⟩, Or.inr (List.mem_cons_self _ _)⟩

/-- The parts of a well-formed list that the operations read first. -/
theorem wf_parts {ll : ll_LinkedList} {ps : List Nat} (h : WellFormed ll ps) :
    ∃ hN fN tN, ll.node ll.head = .ok hN ∧ ll.node hN.next = .ok fN
      ∧ ll.node ll.tail = .ok tN ∧ tN.next = tail_link ll
      ∧ Seg ll hN.next ps ∧ hN.next ≠ ll.head ∧ ll.head ≠ ll.tail
      ∧ ll.head ∉ ps ∧ ll.tail ∉ ps ∧ ps.Nodup := by
  obtain ⟨hseg, hnd, ht, tN, htN, hlink⟩ := h
  obtain ⟨_, hN, hh, hrest⟩ := hseg
  obtain ⟨⟨fN, hf⟩, hfirst⟩ := seg_first hrest htN
  have hhp : ll.head ∉ ps := (List.nodup_cons.1 hnd).1
  have hht : ll.head ≠ ll.tail := fun heq => ht (by rw [← heq]; exact List.mem_cons_self _ _)
  have htp : ll.tail ∉ ps := fun hmem => ht (List.mem_cons_of_mem _ hmem)
  refine ⟨hN, fN, tN, hh, hf, htN, hlink, hrest, ?_, hht, hhp, htp, (List.nodup_cons.1 hnd).2⟩
  rcases hfirst with h1 | h1
  · rw [h1]; exact Ne.symm hht
  · intro heq; rw [heq] at h1; exact hhp h1

/-! ## Scans of doubly-linked and circular lists -/

/-- Where the link out of the first node of a chain points. -/
theorem seg_link {ll : ll_LinkedList} {ps : List Nat} {p : Nat} (h : Seg ll p ps) :
    p = ll.tail ∨ p ∈ ps := by
  cases ps with
  | nil => exact Or.inl h
  | cons q qs => exact Or.inr (h.1 ▸ List.mem_cons_self _ _)

/-- The loop test of the scans on a chain of a doubly-linked or circular
list: it holds exactly while the node at hand is not the last one. -/
theorem scan_cond_chain {ll : ll_LinkedList} {q : Nat} {rest : List Nat} {tN : Node}
    (hty : ll.type ≠ ll_SINGLY) (hseg : Seg ll q (q :: rest)) (hnd : (q :: rest).Nodup)
    (ht : ll.tail ∉ q :: rest) (hh : ll.head ∉ q :: rest) (hht : ll.head ≠ ll.tail)
    (htN : ll.node ll.tail = .ok tN) (hlink : tN.next = tail_link ll) :
    scan_cond ll q = .ok (decide (rest ≠ [])) := by
  obtain ⟨_, n, hn, hrest⟩ := hseg
  cases rest with
  | nil =>
    have hnt : n.next = ll.tail := hrest
    simp only [scan_cond, next_ok hn, ok_bind, hnt, next_ok htN, hlink, tail_link]
    cases hty' : ll.type with
    | ll_SINGLY => exact absurd hty' hty
    | ll_DOUBLY => simp [pure, Except.pure]
    | ll_CIRCLY => simp [pure, Except.pure]
  | cons r rest' =>
    obtain ⟨hr, m, hm, hrest'⟩ := hrest
    have hlk := seg_link hrest'
    have hrq : r ∉ rest' := (List.nodup_cons.1 (List.nodup_cons.1 hnd).2).1
    have hrt : r ≠ ll.tail := fun h => ht (by rw [← h]; simp)
    have hb_head : m.next ≠ ll.head := by
      rcases hlk with h | h
      · rw [h]; exact Ne.symm hht
      · intro heq; rw [heq] at h; exact hh (by simp [h])
    have hb_r : r ≠ m.next := by
      rcases hlk with h | h
      · rw [h]; exact hrt
      · intro heq; rw [← heq] at h; exact hrq h
    simp only [scan_cond, next_ok hn, ok_bind, hr, next_ok hm]
    cases hty' : ll.type with
    | ll_SINGLY => exact absurd hty' hty
    | ll_DOUBLY => simp [pure, Except.pure, hb_r]
    | ll_CIRCLY => simp [pure, Except.pure, hb_head]

/-- The loop of `ll_exchange` on a chain of a doubly-linked or circular list.
It ends, and what it leaves in `n1` (in `n2`) is either the initial value,
when no scanned node holds `a` (holds `b` and not `a`), or a scanned node
that does.  The scanned nodes are all nodes of the chain but the last. -/
theorem exchange_loop_chain {ll : ll_LinkedList} {tN : Node} (a b : Elem)
    (hty : ll.type ≠ ll_SINGLY) (hht : ll.head ≠ ll.tail)
    (htN : ll.node ll.tail = .ok tN) (hlink : tN.next = tail_link ll) :
    ∀ (rest : List Nat) (q fuel n1 n2 : Nat),
      Seg ll q (q :: rest) → (q :: rest).Nodup → ll.tail ∉ q :: rest → ll.head ∉ q :: rest →
      rest.length < fuel →
      ∃ m1 m2, exchange_loop a b ll fuel q n1 n2 = .ok (m1, m2)
        ∧ ((m1 = n1 ∧ ∀ s ∈ (q :: rest).dropLast, payload ll s ≠ a)
            ∨ (m1 ∈ (q :: rest).dropLast ∧ payload ll m1 = a))
        ∧ ((m2 = n2 ∧ ∀ s ∈ (q :: rest).dropLast, payload ll s = a ∨ payload ll s ≠ b)
            ∨ (m2 ∈ (q :: rest).dropLast ∧ payload ll m2 = b ∧ payload ll m2 ≠ a)) := by
  intro rest
  induction rest with
  | nil =>
    intro q fuel n1 n2 hseg hnd ht hh hf
    obtain ⟨f, rfl⟩ : ∃ f, fuel = f + 1 := ⟨fuel - 1, by simp at hf; omega⟩
    have hc := scan_cond_chain hty hseg hnd ht hh hht htN hlink
    refine ⟨n1, n2, ?_, Or.inl ⟨rfl, by simp⟩, Or.inl ⟨rfl, by simp⟩⟩
    simp [exchange_loop, hc, ok_bind, pure, Except.pure]
  | cons r rest' ih =>
    intro q fuel n1 n2 hseg hnd ht hh hf
    obtain ⟨f, rfl⟩ : ∃ f, fuel = f + 1 := ⟨fuel - 1, by simp at hf; omega⟩
    have hc := scan_cond_chain hty hseg hnd ht hh hht htN hlink
    obtain ⟨_, n, hn, hrest⟩ := hseg
    have hr : n.next = r := hrest.1
    rw [hr] at hrest
    have hnd' : (r :: rest').Nodup := (List.nodup_cons.1 hnd).2
    have ht' : ll.tail ∉ r :: rest' := fun h => ht (List.mem_cons_of_mem _ h)
    have hh' : ll.head ∉ r :: rest' := fun h => hh (List.mem_cons_of_mem _ h)
    have hf' : rest'.length < f := by simp at hf; omega
    have hdl : (q :: r :: rest').dropLast = q :: (r :: rest').dropLast := by simp
    have hpq : payload ll q = n.elem := payload_ok hn
    rw [hdl]
    by_cases hea : n.elem = a
    · obtain ⟨m1, m2, hloop, h1, h2⟩ := ih r f q n2 hrest hnd' ht' hh' hf'
      refine ⟨m1, m2, ?_, Or.inr ?_, ?_⟩
      · simp [exchange_loop, hc, ok_bind, elem_ok hn, next_ok hn, hr, hea, hloop]
      · rcases h1 with ⟨rfl, _⟩ | ⟨hm, hp⟩
        · exact ⟨List.mem_cons_self _ _, hpq.trans hea⟩
        · exact ⟨List.mem_cons_of_mem _ hm, hp⟩
      · rcases h2 with ⟨rfl, hall⟩ | ⟨hm, hp⟩
        · refine Or.inl ⟨rfl, fun s hs => ?_⟩
          rcases List.mem_cons.1 hs with rfl | hs
          · exact Or.inl (hpq.trans hea)
          · exact hall s hs
        · exact Or.inr ⟨List.mem_cons_of_mem _ hm, hp⟩
    · by_cases heb : n.elem = b
      · obtain ⟨m1, m2, hloop, h1, h2⟩ := ih r f n1 q hrest hnd' ht' hh' hf'
        have hba : ¬ b = a := fun h => hea (heb.trans h)
        refine ⟨m1, m2, ?_, ?_, Or.inr ?_⟩
        · simp [exchange_loop, hc, ok_bind, elem_ok hn, next_ok hn, hr, hba, heb, hloop]
        · rcases h1 with ⟨rfl, hall⟩ | ⟨hm, hp⟩
          · refine Or.inl ⟨rfl, fun s hs => ?_⟩
            rcases List.mem_cons.1 hs with rfl | hs
            · rw [hpq]; exact hea
            · exact hall s hs
          · exact Or.inr ⟨List.mem_cons_of_mem _ hm, hp⟩
        · rcases h2 with ⟨rfl, _⟩ | ⟨hm, hp⟩
          · exact ⟨List.mem_cons_self _ _, hpq.trans heb, by rw [hpq]; exact hea⟩
          · exact ⟨List.mem_cons_of_mem _ hm, hp⟩
      · obtain ⟨m1, m2, hloop, h1, h2⟩ := ih r f n1 n2 hrest hnd' ht' hh' hf'
        refine ⟨m1, m2, ?_, ?_, ?_⟩
        · simp [exchange_loop, hc, ok_bind, elem_ok hn, next_ok hn, hr, hea, heb, hloop]
        · rcases h1 with ⟨rfl, hall⟩ | ⟨hm, hp⟩
          · refine Or.inl ⟨rfl, fun s hs => ?_⟩
            rcases List.mem_cons.1 hs with rfl | hs
            · rw [hpq]; exact hea
            · exact hall s hs
          · exact Or.inr ⟨List.mem_cons_of_mem _ hm, hp⟩
        · rcases h2 with ⟨rfl, hall⟩ | ⟨hm, hp⟩
          · refine Or.inl ⟨rfl, fun s hs => ?_⟩
            rcases List.mem_cons.1 hs with rfl | hs
            · right; rw [hpq]; exact heb
            · exact hall s hs
          · exact Or.inr ⟨List.mem_cons_of_mem _ hm, hp⟩

/-- An overwrite that keeps the link of the node keeps the list well formed. -/
theorem wf_upd {ll ll' : ll_LinkedList} {ps : List Nat} {p : Nat} {n n' : Node}
    (hwf : WellFormed ll ps) (hn : ll.node p = .ok n) (hnext : n'.next = n.next)
    (u : Upd ll ll' p n') : WellFormed ll' ps := by
  obtain ⟨hseg, hnd, ht, tN, htN, hlink⟩ := hwf
  have hkeep : ∀ (q : Nat) (m : Node), ll.node q = .ok m →
      ∃ m', ll'.node q = .ok m' ∧ m'.next = m.next := by
    intro q m hm
    by_cases hq : q = p
    · subst hq
      rw [hn] at hm
      cases hm
      exact ⟨n', u.node_eq, hnext⟩
    · exact ⟨m, (u.node_ne hq).trans hm, rfl⟩
  refine ⟨?_, ?_, ?_, ?_⟩
  · rw [u.1]
    exact seg_frame u.2.1 (fun q _ m hm => hkeep q m hm) hseg
  · rw [u.1]; exact hnd
  · rw [u.1, u.2.1]; exact ht
  · rw [u.2.1]
    obtain ⟨t', ht', h1⟩ := hkeep _ _ htN
    refine ⟨t', ht', ?_⟩
    rw [h1, hlink]
    simp only [tail_link, u.1, u.2.1, u.2.2.1]

/-- Membership in all but the last element. -/
theorem mem_of_mem_dropLast {α : Type} {l : List α} {x : α} (h : x ∈ l.dropLast) : x ∈ l :=
  List.dropLast_subset l h

/-- What `ll_exchange` does on a well-formed doubly-linked or circular list.
Either it returns `ERROR` and leaves the list as it is, because no scanned
node holds `a` or none holds `b` (and not `a`); or it returns `SUCCESS` after
writing `b` into a scanned node that held `a` and `a` into one that held
`b`. -/
theorem exchange_wf {ll : ll_LinkedList} {ps : List Nat} (a b : Elem) (fuel : Nat)
    (hwf : WellFormed ll ps) (hty : ll.type ≠ ll_SINGLY) (hf : ps.length < fuel) :
    (ll_exchange fuel ll a b = .ok (ll, ERROR)
      ∧ ((∀ s ∈ ps.dropLast, payload ll s ≠ a)
          ∨ (∀ s ∈ ps.dropLast, payload ll s = a ∨ payload ll s ≠ b)))
    ∨ (∃ (n1 n2 : Nat) (N1 N2 : Node) (mid ll' : ll_LinkedList),
        n1 ∈ ps.dropLast ∧ n2 ∈ ps.dropLast ∧ ll.node n1 = .ok N1 ∧ ll.node n2 = .ok N2
        ∧ N1.elem = a ∧ N2.elem = b ∧ n1 ≠ n2
        ∧ Upd ll mid n1 { N1 with elem := b } ∧ Upd mid ll' n2 { N2 with elem := a }
        ∧ ll_exchange fuel ll a b = .ok (ll', SUCCESS)) := by
  obtain ⟨hN, fN, tN, hh, hfn, htN, hlink, hseg, hfh, hht, hhp, htp, hnd⟩ := wf_parts hwf
  have halloc := seg_alloc hseg
  cases ps with
  | nil =>
    have hnt : hN.next = ll.tail := hseg
    left
    refine ⟨?_, Or.inl (by simp)⟩
    simp [ll_exchange, ll_islinkedlistempty, next_ok hh, ok_bind, hnt, pure, Except.pure]
  | cons q rest =>
    have hq : hN.next = q := hseg.1
    rw [hq] at hseg
    have hqt : (q == ll.tail) = false := by
      simp only [beq_eq_false_iff_ne, ne_eq]
      exact fun h => htp (by rw [← h]; simp)
    obtain ⟨m1, m2, hloop, h1, h2⟩ := exchange_loop_chain a b hty hht htN hlink rest q fuel 0 0
      hseg hnd htp hhp (by simp at hf; omega)
    have hpos : ∀ s ∈ (q :: rest).dropLast, s ≠ 0 := by
      intro s hs h0
      obtain ⟨n, hn⟩ := halloc s (mem_of_mem_dropLast hs)
      have := (node_le hn).1
      omega
    have hstart : ll_exchange fuel ll a b = (do
        if m1 ≠ 0 ∧ m2 ≠ 0 then
          let e ← ll.elem m1
          let e2 ← ll.elem m2
          let ll ← ll.setElem m1 e2
          let ll ← ll.setElem m2 e
          pure (ll, SUCCESS)
        else
          pure (ll, ERROR) : Except Fault (ll_LinkedList × Int)) := by
      simp only [ll_exchange, ll_islinkedlistempty, next_ok hh, ok_bind, hq, hqt, pure,
        Except.pure, hloop]
      rfl
    by_cases hboth : m1 ≠ 0 ∧ m2 ≠ 0
    · right
      have h1' : m1 ∈ (q :: rest).dropLast ∧ payload ll m1 = a := by
        rcases h1 with ⟨h0, _⟩ | h
        · exact absurd h0 hboth.1
        · exact h
      have h2' : m2 ∈ (q :: rest).dropLast ∧ payload ll m2 = b ∧ payload ll m2 ≠ a := by
        rcases h2 with ⟨h0, _⟩ | h
        · exact absurd h0 hboth.2
        · exact h
      obtain ⟨N1, hN1⟩ := halloc m1 (mem_of_mem_dropLast h1'.1)
      obtain ⟨N2, hN2⟩ := halloc m2 (mem_of_mem_dropLast h2'.1)
      have hN1a : N1.elem = a := (payload_ok hN1).symm.trans h1'.2
      have hN2b : N2.elem = b := (payload_ok hN2).symm.trans h2'.2.1
      have hne : m1 ≠ m2 := by
        intro heq
        apply h2'.2.2
        rw [← heq]
        exact h1'.2
      obtain ⟨mid, hmid, umid⟩ := setElem_upd hN1 N2.elem
      have hmid2 : mid.node m2 = .ok N2 := (umid.node_ne (Ne.symm hne)).trans hN2
      obtain ⟨ll', hll', ull'⟩ := setElem_upd hmid2 N1.elem
      rw [hN2b] at umid
      rw [hN1a] at ull'
      refine ⟨m1, m2, N1, N2, mid, ll', h1'.1, h2'.1, hN1, hN2, hN1a, hN2b, hne, umid, ull', ?_⟩
      rw [hstart, if_pos hboth, elem_ok hN1, ok_bind, elem_ok hN2, ok_bind, hmid, ok_bind, hll',
        ok_bind]
      rfl
    · left
      refine ⟨by rw [hstart, if_neg hboth]; rfl, ?_⟩
      by_cases hm1 : m1 = 0
      · left
        rcases h1 with ⟨_, hall⟩ | ⟨hm, _⟩
        · exact hall
        · exact absurd hm1 (hpos m1 hm)
      · right
        have hm2 : m2 = 0 := by
          by_contra h
          exact hboth ⟨hm1, h⟩
        rcases h2 with ⟨_, hall⟩ | ⟨hm, _⟩
        · exact hall
        · exact absurd hm2 (hpos m2 hm)

/-- An element that occurs at most once among the images of a list has one
preimage in the list. -/
theorem unique_of_count_le_one {α : Type} (f : α → Elem) (a : Elem) :
    ∀ (l : List α), (l.map f).count a ≤ 1 →
      ∀ p ∈ l, ∀ q ∈ l, f p = a → f q = a → p = q
  | [], _, p, hp, _, _, _, _ => by simp at hp
  | x :: l, hc, p, hp, q, hq, hfp, hfq => by
    rw [List.map_cons, List.count_cons] at hc
    have hpos : ∀ r ∈ l, f r = a → 0 < (l.map f).count a := fun r hr hfr =>
      List.count_pos_iff.2 (List.mem_map.2 ⟨r, hr, hfr⟩)
    rcases List.mem_cons.1 hp with rfl | hp' <;> rcases List.mem_cons.1 hq with rfl | hq'
    · rfl
    · have := hpos q hq' hfq
      simp [hfp] at hc
      omega
    · have := hpos p hp' hfp
      simp [hfq] at hc
      omega
    · exact unique_of_count_le_one f a l (by omega) p hp' q hq' hfp hfq

/-! ## Written-out inputs are well formed -/

/-- The doubly-linked list [1, 2, 3] is well formed; its real nodes are at
addresses 5, 4, 3. -/
theorem doubly_123_wf : WellFormed doubly_123 [5, 4, 3] :=
  ⟨⟨rfl, _, rfl, rfl, _, rfl, rfl, _, rfl, rfl, _, rfl, rfl⟩, by decide, by decide, _, rfl, rfl⟩

/-- The circular list [1, 2, 3] is well formed; its real nodes are at
addresses 5, 4, 3. -/
theorem circly_123_wf : WellFormed circly_123 [5, 4, 3] :=
  ⟨⟨rfl, _, rfl, rfl, _, rfl, rfl, _, rfl, rfl, _, rfl, rfl⟩, by decide, by decide, _, rfl, rfl⟩

/-! ## Exchange (C11) -/

/-- C11 (counterexample): with a duplicated element the double exchange is not
the identity.  On the doubly-linked list [1, 2, 2, 3], `ll_exchange(list, 1, 2)`
succeeds twice and leaves [2, 1, 2, 3]. -/
theorem C11_exchange_twice_duplicates :
    (do let ll ← ll_build ll_DOUBLY [1, 2, 2, 3]
        let (ll, rc1) ← ll_exchange 8 ll 1 2
        let (ll, rc2) ← ll_exchange 8 ll 1 2
        pure (rc1, rc2, ← ll_elements ll)) = Except.ok (SUCCESS, SUCCESS, [2, 1, 2, 3])
    ∧ [2, 1, 2, 3] ≠ [1, 2, 2, 3] :=
  ⟨rfl, by decide⟩

/-- C11 (amended): on a well-formed doubly-linked or circular list in which
the distinct elements `a` and `b` each occur exactly once, calling
`ll_exchange(list, a, b)` twice (with a budget above the number of nodes)
returns twice, leaves the forward element sequence as it was and leaves every
node of the store holding what it held originally. -/
theorem C11_exchange_twice_unique (ll : ll_LinkedList) (ps : List Nat) (xs : List Elem)
    (a b : Elem) (fuel : Nat)
    (hwf : WellFormed ll ps) (hty : ll.type ≠ ll_SINGLY) (hxs : ll_elements ll = .ok xs)
    (hab : a ≠ b) (ha : xs.count a = 1) (hb : xs.count b = 1) (hf : ps.length < fuel) :
    ∃ ll1 rc1 ll2 rc2, ll_exchange fuel ll a b = .ok (ll1, rc1)
      ∧ ll_exchange fuel ll1 a b = .ok (ll2, rc2)
      ∧ ll_elements ll2 = .ok xs
      ∧ ∀ p : Nat, ll2.node p = ll.node p := by
  have hxs0 := elements_wf hwf
  rw [hxs] at hxs0
  have hxs1 : xs = ps.map (payload ll) := by injection hxs0
  have huniq_a := unique_of_count_le_one (payload ll) a ps (by rw [← hxs1, ha])
  have huniq_b := unique_of_count_le_one (payload ll) b ps (by rw [← hxs1, hb])
  rcases exchange_wf a b fuel hwf hty hf with
    ⟨herr, _⟩ | ⟨n1, n2, N1, N2, mid, ll1, hn1, hn2, hN1, hN2, hN1a, hN2b, hne, umid, ull1, hok⟩
  · exact ⟨ll, ERROR, ll, ERROR, herr, herr, hxs, fun _ => rfl⟩
  · have hwf_mid : WellFormed mid ps := wf_upd hwf hN1 (by rfl) umid
    have hmid2 : mid.node n2 = .ok N2 := (umid.node_ne (Ne.symm hne)).trans hN2
    have hwf1 : WellFormed ll1 ps := wf_upd hwf_mid hmid2 (by rfl) ull1
    have hty1 : ll1.type ≠ ll_SINGLY := by rw [ull1.2.2.1, umid.2.2.1]; exact hty
    have h1_n1 : ll1.node n1 = .ok { N1 with elem := b } := (ull1.node_ne hne).trans umid.node_eq
    have h1_n2 : ll1.node n2 = .ok { N2 with elem := a } := ull1.node_eq
    have h1_other : ∀ s : Nat, s ≠ n1 → s ≠ n2 → ll1.node s = ll.node s := fun s h1 h2 =>
      (ull1.node_ne h2).trans (umid.node_ne h1)
    have hp_n1 : payload ll n1 = a := (payload_ok hN1).trans hN1a
    have hp_n2 : payload ll n2 = b := (payload_ok hN2).trans hN2b
    have hmem1 := mem_of_mem_dropLast hn1
    have hmem2 := mem_of_mem_dropLast hn2
    rcases exchange_wf a b fuel hwf1 hty1 hf with
      ⟨_, hreason⟩ | ⟨m1, m2, M1, M2, mid2, ll2, hm1, hm2, hM1, hM2, hM1a, hM2b, hne2, umid2, ull2,
        hok2⟩
    · exfalso
      rcases hreason with hall | hall
      · exact hall n2 hn2 (payload_ok h1_n2)
      · rcases hall n1 hn1 with h | h
        · rw [payload_ok h1_n1] at h
          exact hab h.symm
        · exact h (payload_ok h1_n1)
    · have hm1_eq : m1 = n2 := by
        by_contra hne_m
        by_cases hm : m1 = n1
        · rw [hm, h1_n1] at hM1
          cases hM1
          exact hab hM1a.symm
        · rw [h1_other m1 hm hne_m] at hM1
          exact hm (huniq_a m1 (mem_of_mem_dropLast hm1) n1 hmem1
            ((payload_ok hM1).trans hM1a) hp_n1)
      have hm2_eq : m2 = n1 := by
        by_contra hne_m
        by_cases hm : m2 = n2
        · rw [hm, h1_n2] at hM2
          cases hM2
          exact hab hM2b
        · rw [h1_other m2 hne_m hm] at hM2
          exact hm (huniq_b m2 (mem_of_mem_dropLast hm2) n2 hmem2
            ((payload_ok hM2).trans hM2b) hp_n2)
      subst hm1_eq hm2_eq
      rw [h1_n2] at hM1
      rw [h1_n1] at hM2
      cases hM1
      cases hM2
      have hmid2_m2 : mid2.node m2 = .ok { N1 with elem := b } :=
        (umid2.node_ne hne).trans h1_n1
      have hnode : ∀ p : Nat, ll2.node p = ll.node p := by
        intro p
        by_cases hp1 : p = m2
        · subst hp1
          rw [ull2.node_eq, hN1, ← hN1a]
        · rw [ull2.node_ne hp1]
          by_cases hp2 : p = m1
          · subst hp2
            rw [umid2.node_eq, hN2, ← hN2b]
          · rw [umid2.node_ne hp2, h1_other p hp1 hp2]
      have hwf2 : WellFormed ll2 ps :=
        wf_upd (wf_upd hwf1 h1_n2 (by rfl) umid2) hmid2_m2 (by rfl) ull2
      refine ⟨ll1, SUCCESS, ll2, SUCCESS, hok, hok2, ?_, hnode⟩
      rw [elements_wf hwf2, hxs1]
      congr 1
      exact List.map_congr_left (fun q _ => by simp only [payload, hnode q])

/-- C11 (witness): the amended statement applied to the circular list
[1, 2, 3] with `a = 1` and `b = 2`. -/
theorem C11_exchange_twice_unique_witness :
    WellFormed circly_123 [5, 4, 3] ∧ ll_elements circly_123 = .ok [1, 2, 3]
    ∧ ∃ ll1 rc1 ll2 rc2, ll_exchange 8 circly_123 1 2 = .ok (ll1, rc1)
      ∧ ll_exchange 8 ll1 1 2 = .ok (ll2, rc2)
      ∧ ll_elements ll2 = .ok [1, 2, 3]
      ∧ ∀ p : Nat, ll2.node p = circly_123.node p :=
  ⟨circly_123_wf, rfl,
    C11_exchange_twice_unique circly_123 [5, 4, 3] [1, 2, 3] 1 2 8 circly_123_wf (by decide) rfl
      (by decide) (by decide) (by decide) (by decide)⟩

/-! ## Scenarios (C12, C13) -/

/-- C12 (code bug): the doubly-linked scenario leaves the claimed track at the
second step.  After `ll_insert(3)`, `ll_insert(2)`, `ll_insert(1)` the order is
[1, 2, 3]; `ll_insert_elementatpos(list, 9, 1)` returns `SUCCESS` and gives
[9, 1, 2, 3], not [1, 9, 2, 3]; `ll_delete_elementatpos(list, 0, dtor)` then
gives [1, 2, 3], not [9, 2, 3]; and `ll_sort(list, 0, 3, ascending)` gives
[null, 3, null], not [2, 3, 9]. -/
theorem C12_doubly_scenario_diverges :
    (do let ll ← ll_init ll_DOUBLY
        let (ll, _) ← ll_insert ll 3
        let (ll, _) ← ll_insert ll 2
        let (ll, _) ← ll_insert ll 1
        let s1 ← ll_elements ll
        let (ll, rc) ← ll_insert_elementatpos ll 9 1
        let s2 ← ll_elements ll
        let ll ← ll_delete_elementatpos ll 0
        let s3 ← ll_elements ll
        let ll ← ll_sort 8 ll 0 3 cmp_value
        let s4 ← ll_elements ll
        pure (s1, rc, s2, s3, s4))
      = Except.ok ([1, 2, 3], SUCCESS, [9, 1, 2, 3], [1, 2, 3], [0, 3, 0]) :=
  rfl

/-- C13 (confirmed): the circular scenario.  From `ll_init(ll_CIRCLY)`, after
`ll_insert(A)`, `ll_insert_atend(B)`, `ll_insert_atend(C)` the forward element
sequence is [A, B, C], `ll_search(list, B)` returns true and
`ll_search(list, Z)` returns false for every `Z` other than `A` and `B`, with
any iteration budget of at least 3. -/
theorem C13_circular_scenario (A B C Z : Elem) (fuel : Nat) (hZA : Z ≠ A) (hZB : Z ≠ B) :
    (do let ll ← ll_init ll_CIRCLY
        let (ll, _) ← ll_insert ll A
        let (ll, _) ← ll_insert_atend (fuel + 3) ll B
        let (ll, _) ← ll_insert_atend (fuel + 3) ll C
        pure (← ll_elements ll, ← ll_search (fuel + 3) ll B, ← ll_search (fuel + 3) ll Z))
      = Except.ok ([A, B, C], true, false) := by
  simp [ll_init, ll_insert, ll_insert_atend, ll_elements, ll_search, search_loop, seek_while,
    scan_cond, walk, ll_islinkedlistempty, _init_node, ll_LinkedList.next, ll_LinkedList.elem,
    ll_LinkedList.node, ll_LinkedList.setNext, ll_LinkedList.setElem, ll_LinkedList.store,
    ll_LinkedList.incSize, bind, Except.bind, pure, Except.pure, hZA, hZB, Ne.symm hZA, Ne.symm hZB]

/-- C13 (witness): the scenario with A = 7, B = 8, C = 9 and Z = 5. -/
theorem C13_circular_scenario_witness :
    (5 : Elem) ≠ 7 ∧ (5 : Elem) ≠ 8
    ∧ (do let ll ← ll_init ll_CIRCLY
          let (ll, _) ← ll_insert ll 7
          let (ll, _) ← ll_insert_atend 3 ll 8
          let (ll, _) ← ll_insert_atend 3 ll 9
          pure (← ll_elements ll, ← ll_search 3 ll 8, ← ll_search 3 ll 5))
        = Except.ok ([7, 8, 9], true, false) :=
  ⟨by decide, by decide, C13_circular_scenario 7 8 9 5 0 (by decide) (by decide)⟩

/-! ## Boundaries (C14, C15) -/

/-- Positions beyond the stored counter change nothing.  On every list whose
head sentinel is allocated, with `n` the value of `ll->size`,
`ll_insert_elementatpos(list, x, pos)` with `pos > n` returns `ERROR` and
`ll_delete_elementatpos(list, pos, dtor)` with `pos >= n` returns; in both
cases the whole list state is as before.  The guard follows the counter, not
the number of nodes. -/
theorem out_of_range_by_counter (ll : ll_LinkedList) (x : Elem) (pos_ins pos_del : Nat)
    (h : Node) (hhead : ll.node ll.head = .ok h)
    (hins : ll_getlinkedlistsize ll < pos_ins) (hdel : ll_getlinkedlistsize ll ≤ pos_del) :
    ll_insert_elementatpos ll x pos_ins = .ok (ll, ERROR)
    ∧ ll_delete_elementatpos ll pos_del = .ok ll := by
  constructor
  · unfold ll_insert_elementatpos
    simp only [ll_getlinkedlistsize] at hins
    simp [hins, pure, Except.pure]
  · unfold ll_delete_elementatpos ll_islinkedlistempty ll_LinkedList.next
    simp only [ll_getlinkedlistsize] at hdel
    simp only [hhead, bind, Except.bind, pure, Except.pure]
    split <;> simp [hdel]

/-- C14 (code defect): the range tests of `ll_insert_elementatpos` and
`ll_delete_elementatpos` read `ll->size`, which `ll_delete` leaves untouched.
After `ll_insert(1); ll_insert(2); ll_delete(1)` the Doubly and the Circular
list hold the one element 2 while the counter is 2.  On that list of size 1,
`ll_insert_elementatpos(list, 9, 2)` returns `SUCCESS` and the sequence
becomes `[2, 9]`, and on the Doubly list `ll_delete_elementatpos(list, 1)`
removes the only element.  On the Circular list that holds the one element 4
after four inserts and three `ll_delete` calls,
`ll_delete_elementatpos(list, 3)` frees the head sentinel. -/
theorem C14_out_of_range_changes_list :
    (do let ll ← ll_build ll_DOUBLY [2, 1]
        let ll ← ll_delete 4 ll 1
        pure (← ll_elements ll, ll_getlinkedlistsize ll)) = Except.ok ([2], 2)
    ∧ (do let ll ← ll_build ll_DOUBLY [2, 1]
          let ll ← ll_delete 4 ll 1
          let (ll, rc) ← ll_insert_elementatpos ll 9 2
          pure (rc, ← ll_elements ll, ll_getlinkedlistsize ll)) = Except.ok (SUCCESS, [2, 9], 3)
    ∧ (do let ll ← ll_build ll_CIRCLY [2, 1]
          let ll ← ll_delete 4 ll 1
          let (ll, rc) ← ll_insert_elementatpos ll 9 2
          pure (rc, ← ll_elements ll, ll_getlinkedlistsize ll)) = Except.ok (SUCCESS, [2, 9], 3)
    ∧ (do let ll ← ll_build ll_DOUBLY [2, 1]
          let ll ← ll_delete 4 ll 1
          let ll ← ll_delete_elementatpos ll 1
          pure (← ll_elements ll, ll_getlinkedlistsize ll)) = Except.ok ([], 1)
    ∧ (do let ll ← ll_build ll_CIRCLY [4, 3, 2, 1]
          let ll ← ll_delete 6 ll 1
          let ll ← ll_delete 6 ll 2
          let ll ← ll_delete 6 ll 3
          pure (← ll_elements ll, ll_getlinkedlistsize ll, (ll.node ll.head).toOption.isSome))
        = Except.ok ([4], 4, true)
    ∧ (do let ll ← ll_build ll_CIRCLY [4, 3, 2, 1]
          let ll ← ll_delete 6 ll 1
          let ll ← ll_delete 6 ll 2
          let ll ← ll_delete 6 ll 3
          let ll ← ll_delete_elementatpos ll 3
          pure (ll.node ll.head)) = Except.ok (Except.error Fault.invalid) :=
  ⟨rfl, rfl, rfl, rfl, rfl, rfl⟩

/-- C15 (code bug): `ll_delete_atend` on an empty list is not a no-op.  On the
list returned by `ll_init`, the doubly-linked and the circular variant free
the tail sentinel (the cell at address 2 is released), and the singly-linked
variant reads through the null link of the tail sentinel. -/
theorem C15_delete_atend_on_empty_frees_tail :
    (do let ll ← ll_init ll_DOUBLY
        let ll ← ll_delete_atend 4 ll
        pure (ll.tail, ll.mem))
      = Except.ok (2, [some { elem := 0, next := 2, prev := 1 }, none])
    ∧ (do let ll ← ll_init ll_CIRCLY
          let ll ← ll_delete_atend 4 ll
          pure (ll.tail, ll.mem))
      = Except.ok (2, [some { elem := 0, next := 1, prev := 0 }, none])
    ∧ (do let ll ← ll_init ll_SINGLY
          ll_delete_atend 4 ll) = Except.error Fault.invalid :=
  ⟨rfl, rfl, rfl⟩

/-! ## Head and tail operations (C16 to C19) -/

/-- C16 (confirmed): on a well-formed list of any topology whose forward
element sequence is `xs` and whose size counter is below the largest `size_t`
value, `ll_insert(list, e)` returns `SUCCESS`, the list stays well formed with
the new node in front, the forward element sequence becomes `e` followed by
`xs`, the size grows by one, and `ll_get` then returns `e`. -/
theorem C16_insert_front (ll : ll_LinkedList) (ps : List Nat) (xs : List Elem) (e : Elem)
    (hwf : WellFormed ll ps) (hxs : ll_elements ll = .ok xs)
    (hsz : ll_getlinkedlistsize ll + 1 < SIZE_MOD) :
    ∃ ll', ll_insert ll e = .ok (ll', SUCCESS)
      ∧ WellFormed ll' ((ll.mem.length + 1) :: ps)
      ∧ ll_elements ll' = .ok (e :: xs)
      ∧ ll_getlinkedlistsize ll' = ll_getlinkedlistsize ll + 1
      ∧ ll_get ll' = .ok e := by
  obtain ⟨hN, fN, tN, hh, hf, htN, hlink, hseg, hfh, hht, hhp, htp, hnd⟩ := wf_parts hwf
  obtain ⟨ll', hins, hhead, htail, htype, hsize, ⟨m, hm, hmn⟩, ⟨k, hk, hkn, hke⟩, hothers⟩ :=
    insert_spec e hh hf hfh
  have halloc := seg_alloc hseg
  have hfresh : ∀ (r : Nat) (n : Node), ll.node r = .ok n → r ≠ ll.mem.length + 1 := by
    intro r n hr h
    have := (node_le hr).2
    rw [h] at this; omega
  have hnew_ps : ll.mem.length + 1 ∉ ps := fun hmem => by
    obtain ⟨n, hn⟩ := halloc _ hmem
    exact hfresh _ _ hn rfl
  have hne_h : ∀ q ∈ ps, q ≠ ll.head := fun q hq heq => hhp (heq ▸ hq)
  -- the chain of the old real nodes is untouched
  have hseg' : Seg ll' hN.next ps :=
    seg_frame htail (fun q hq n hn => by
      obtain ⟨n', hn', h1, _⟩ := hothers q n (hne_h q hq) hn
      exact ⟨n', hn', h1⟩) hseg
  have hwf' : WellFormed ll' ((ll.mem.length + 1) :: ps) := by
    refine ⟨?_, ?_, ?_, ?_⟩
    · rw [hhead]
      refine ⟨rfl, m, hm, ?_⟩
      rw [hmn]
      refine ⟨rfl, k, hk, ?_⟩
      rw [hkn]
      exact hseg'
    · rw [hhead]
      refine List.nodup_cons.2 ⟨?_, List.nodup_cons.2 ⟨hnew_ps, hnd⟩⟩
      intro hmem
      rcases List.mem_cons.1 hmem with h1 | h1
      · exact hfresh _ _ hh h1
      · exact hhp h1
    · rw [hhead, htail]
      intro hmem
      rcases List.mem_cons.1 hmem with h1 | h1
      · exact hht h1.symm
      · rcases List.mem_cons.1 h1 with h2 | h2
        · exact hfresh _ _ htN h2
        · exact htp h2
    · rw [htail]
      obtain ⟨t', ht', h1, _⟩ := hothers ll.tail tN (Ne.symm hht) htN
      refine ⟨t', ht', ?_⟩
      rw [h1, hlink]
      simp only [tail_link, htype, hhead, htail]
  have hxs0 := elements_wf hwf
  rw [hxs] at hxs0
  have hxs1 : xs = ps.map (payload ll) := by
    injection hxs0
  have hpay : ps.map (payload ll') = ps.map (payload ll) :=
    List.map_congr_left (fun q hq => by
      obtain ⟨n, hn⟩ := halloc q hq
      obtain ⟨n', hn', _, h2⟩ := hothers q n (hne_h q hq) hn
      rw [payload_ok hn', payload_ok hn, h2])
  refine ⟨ll', hins, hwf', ?_, ?_, ?_⟩
  · rw [elements_wf hwf', List.map_cons, payload_ok hk, hke, hpay, hxs1]
  · simp only [ll_getlinkedlistsize] at hsz ⊢
    rw [hsize, Nat.mod_eq_of_lt hsz]
  · have hnt : (ll.mem.length + 1 == ll.tail) = false := by
      simp only [beq_eq_false_iff_ne, ne_eq]
      exact fun h => hfresh _ _ htN h.symm
    simp only [ll_get, ll_islinkedlistempty, hhead, htail, next_ok hm, hmn, ok_bind, pure,
      Except.pure, hnt, elem_ok hk, hke]
    rfl

/-- C16 (witness): `ll_insert(list, 9)` on the doubly-linked list
[1, 2, 3]. -/
theorem C16_insert_front_witness :
    WellFormed doubly_123 [5, 4, 3] ∧ ll_elements doubly_123 = .ok [1, 2, 3]
    ∧ ∃ ll', ll_insert doubly_123 9 = .ok (ll', SUCCESS)
      ∧ WellFormed ll' [6, 5, 4, 3]
      ∧ ll_elements ll' = .ok [9, 1, 2, 3]
      ∧ ll_getlinkedlistsize ll' = 4
      ∧ ll_get ll' = .ok 9 :=
  ⟨doubly_123_wf, rfl, C16_insert_front doubly_123 [5, 4, 3] [1, 2, 3] 9 doubly_123_wf rfl
    (by decide)⟩

/-- C17 (code bug): `ll_insert_atend` on a non-empty singly-linked list does
not return.  On the list [1] the scan `tmp->next != tmp->next->next` reads
through the null link of the tail sentinel. -/
theorem C17_insert_atend_singly_faults :
    (do let ll ← ll_build ll_SINGLY [1]
        ll_insert_atend 4 ll 2) = Except.error Fault.invalid :=
  rfl

/-- C18 (code bug): `ll_get_atend` on a non-empty singly-linked list does not
return the last element.  On the list [1, 2] the scan reads through the null
link of the tail sentinel. -/
theorem C18_get_atend_singly_faults :
    (do let ll ← ll_build ll_SINGLY [1, 2]
        ll_get_atend 4 ll) = Except.error Fault.invalid :=
  rfl

/-- C19 (code bug): `ll_delete_atend` does not detach the last real node while
keeping the sentinels.  On the circular list [1, 2] it frees the tail sentinel
(address 2) and links the node holding 2 (address 3) to the head sentinel, so
2 is still in the list.  On the doubly-linked list [1] it frees the tail
sentinel and the node holding 1 stays.  On the singly-linked list [1, 2] it
reads through the null link of the tail sentinel. -/
theorem C19_delete_atend_frees_tail_sentinel :
    (do let ll ← ll_build ll_CIRCLY [1, 2]
        let ll ← ll_delete_atend 4 ll
        pure (ll.head, ll.tail, ll.mem))
      = Except.ok (1, 2, [some { elem := 0, next := 4, prev := 0 }, none,
          some { elem := 2, next := 1, prev := 0 }, some { elem := 1, next := 3, prev := 0 }])
    ∧ (do let ll ← ll_build ll_DOUBLY [1]
          let ll ← ll_delete_atend 4 ll
          pure (ll.head, ll.tail, ll.mem, ← ll_elements ll))
      = Except.ok (1, 2, [some { elem := 0, next := 3, prev := 1 }, none,
          some { elem := 1, next := 2, prev := 1 }], [1])
    ∧ (do let ll ← ll_build ll_SINGLY [1, 2]
          ll_delete_atend 4 ll) = Except.error Fault.invalid :=
  ⟨rfl, rfl, rfl⟩

/-! ## Positional insertion (C20) -/

/-- C20 (code bug): for `pos >= 1`, `ll_insert_elementatpos` puts the element
one position early.  On the doubly-linked list [1, 2, 3], position 1 gives
[9, 1, 2, 3] where the claim names [1, 9, 2, 3], and position 3, the size,
gives [1, 2, 9, 3] where the claim names [1, 2, 3, 9]. -/
theorem C20_insert_at_lands_one_early :
    (do let ll ← ll_build ll_DOUBLY [1, 2, 3]
        let (ll, rc) ← ll_insert_elementatpos ll 9 1
        pure (rc, ← ll_elements ll)) = Except.ok (SUCCESS, [9, 1, 2, 3])
    ∧ (do let ll ← ll_build ll_DOUBLY [1, 2, 3]
          let (ll, rc) ← ll_insert_elementatpos ll 9 3
          pure (rc, ← ll_elements ll)) = Except.ok (SUCCESS, [1, 2, 9, 3]) :=
  ⟨rfl, rfl⟩

/-! ## Scans that stop at the anchor -/

/-- The loop test of the scans at a node that is not the last one of its
chain: it holds, in each topology. -/
theorem scan_cond_inner {ll : ll_LinkedList} {q : Nat} {rest : List Nat}
    (hseg : Seg ll q (q :: rest)) (hne : rest ≠ []) (hnd : (q :: rest).Nodup)
    (ht : ll.tail ∉ q :: rest) (hh : ll.head ∉ q :: rest) (hht : ll.head ≠ ll.tail) :
    scan_cond ll q = .ok true := by
  obtain ⟨_, n, hn, hrest⟩ := hseg
  cases rest with
  | nil => exact absurd rfl hne
  | cons r rest' =>
    obtain ⟨hr, m, hm, hrest'⟩ := hrest
    have hlk := seg_link hrest'
    have hrq : r ∉ rest' := (List.nodup_cons.1 (List.nodup_cons.1 hnd).2).1
    have hrt : r ≠ ll.tail := fun h => ht (by rw [← h]; simp)
    have hb_head : m.next ≠ ll.head := by
      rcases hlk with h | h
      · rw [h]; exact Ne.symm hht
      · intro heq; rw [heq] at h; exact hh (by simp [h])
    have hb_r : r ≠ m.next := by
      rcases hlk with h | h
      · rw [h]; exact hrt
      · intro heq; rw [← heq] at h; exact hrq h
    simp only [scan_cond, next_ok hn, ok_bind, hr, next_ok hm]
    cases ll.type with
    | ll_SINGLY => simp [pure, Except.pure, hb_r]
    | ll_DOUBLY => simp [pure, Except.pure, hb_r]
    | ll_CIRCLY => simp [pure, Except.pure, hb_head]

/-- A chain through `pre ++ l` continues as a chain through `l`. -/
theorem seg_drop {ll : ll_LinkedList} : ∀ (pre : List Nat) {l : List Nat} {q : Nat},
    Seg ll q (pre ++ l) → ∃ q', Seg ll q' l
  | [], _, q, h => ⟨q, h⟩
  | _ :: pre, _, _, h => by
    obtain ⟨_, n, _, hrest⟩ := h
    exact seg_drop pre hrest

/-- The scan of `ll_get_after`, `ll_insert_after`: it stops at the first node
holding the anchor, when that node is not the last one. -/
theorem find_here_chain {ll : ll_LinkedList} (anchor : Elem) (hht : ll.head ≠ ll.tail) :
    ∀ (pre : List Nat) (p r : Nat) (post : List Nat) (q fuel : Nat),
      Seg ll q (pre ++ p :: r :: post) → (pre ++ p :: r :: post).Nodup →
      ll.tail ∉ pre ++ p :: r :: post → ll.head ∉ pre ++ p :: r :: post →
      (∀ s ∈ pre, payload ll s ≠ anchor) → payload ll p = anchor → pre.length < fuel →
      find_while scan_cond (hit_here anchor) ll fuel q = .ok (some p) := by
  intro pre
  induction pre with
  | nil =>
    intro p r post q fuel hseg hnd ht hh _ hp hf
    obtain ⟨f, rfl⟩ : ∃ f, fuel = f + 1 := ⟨fuel - 1, by simp at hf; omega⟩
    have hq : q = p := hseg.1
    subst hq
    have hc := scan_cond_inner hseg (by simp) hnd ht hh hht
    obtain ⟨_, n, hn, _⟩ := hseg
    have he : n.elem = anchor := (payload_ok hn).symm.trans hp
    simp [find_while, hc, ok_bind, hit_here, elem_ok hn, he, pure, Except.pure]
  | cons s pre' ih =>
    intro p r post q fuel hseg hnd ht hh hpre hp hf
    obtain ⟨f, rfl⟩ : ∃ f, fuel = f + 1 := ⟨fuel - 1, by simp at hf; omega⟩
    have hq : q = s := hseg.1
    subst hq
    have hseg' : Seg ll q (q :: (pre' ++ p :: r :: post)) := hseg
    have hc := scan_cond_inner hseg' (by simp) hnd ht hh hht
    obtain ⟨_, n, hn, hrest⟩ := hseg
    have he : ¬ n.elem = anchor := fun h =>
      hpre q (List.mem_cons_self _ _) ((payload_ok hn).trans h)
    have hrec := ih p r post n.next f hrest (List.nodup_cons.1 hnd).2
      (fun h => ht (List.mem_cons_of_mem _ h)) (fun h => hh (List.mem_cons_of_mem _ h))
      (fun s hs => hpre s (List.mem_cons_of_mem _ hs)) hp (by simp at hf; omega)
    simp [find_while, hc, ok_bind, hit_here, elem_ok hn, he, next_ok hn, hrec, pure, Except.pure]

/-- The scan of `ll_get_before`, `ll_insert_before`, `ll_delete`: it stops at
the node in front of the first node, from the second on, that holds the
anchor. -/
theorem find_next_chain {ll : ll_LinkedList} (anchor : Elem) (hht : ll.head ≠ ll.tail) :
    ∀ (pre : List Nat) (z p : Nat) (post : List Nat) (q fuel : Nat),
      Seg ll q (pre ++ z :: p :: post) → (pre ++ z :: p :: post).Nodup →
      ll.tail ∉ pre ++ z :: p :: post → ll.head ∉ pre ++ z :: p :: post →
      (∀ s ∈ (pre ++ [z]).tail, payload ll s ≠ anchor) → payload ll p = anchor →
      pre.length < fuel →
      find_while scan_cond (hit_next anchor) ll fuel q = .ok (some z) := by
  intro pre
  induction pre with
  | nil =>
    intro z p post q fuel hseg hnd ht hh _ hp hf
    obtain ⟨f, rfl⟩ : ∃ f, fuel = f + 1 := ⟨fuel - 1, by simp at hf; omega⟩
    have hq : q = z := hseg.1
    subst hq
    have hc := scan_cond_inner hseg (by simp) hnd ht hh hht
    obtain ⟨_, n, hn, hnp, m, hm, _⟩ := hseg
    have he : m.elem = anchor := (payload_ok hm).symm.trans hp
    simp [find_while, hc, ok_bind, hit_next, next_ok hn, hnp, elem_ok hm, he, pure, Except.pure]
  | cons s pre' ih =>
    intro z p post q fuel hseg hnd ht hh hpre hp hf
    obtain ⟨f, rfl⟩ : ∃ f, fuel = f + 1 := ⟨fuel - 1, by simp at hf; omega⟩
    have hq : q = s := hseg.1
    subst hq
    have hseg' : Seg ll q (q :: (pre' ++ z :: p :: post)) := hseg
    have hc := scan_cond_inner hseg' (by simp) hnd ht hh hht
    obtain ⟨_, n, hn, hrest⟩ := hseg
    -- the node after `q` is the first node of the rest of the chain
    obtain ⟨hnext_mem, m, hm⟩ : n.next ∈ pre' ++ [z] ∧ ∃ m, ll.node n.next = .ok m := by
      cases pre' with
      | nil =>
        obtain ⟨h1, m, hm, _⟩ := hrest
        exact ⟨by simp [h1], m, by rw [h1]; exact hm⟩
      | cons x l =>
        obtain ⟨h1, m, hm, _⟩ := hrest
        exact ⟨by simp [h1], m, by rw [h1]; exact hm⟩
    have he : ¬ m.elem = anchor := fun h =>
      hpre n.next (by simpa using hnext_mem) ((payload_ok hm).trans h)
    have hrec := ih z p post n.next f hrest (List.nodup_cons.1 hnd).2
      (fun h => ht (List.mem_cons_of_mem _ h)) (fun h => hh (List.mem_cons_of_mem _ h))
      (fun s hs => hpre s (by simpa using List.mem_of_mem_tail hs)) hp (by simp at hf; omega)
    simp [find_while, hc, ok_bind, hit_next, next_ok hn, elem_ok hm, he, hrec, pure, Except.pure]

/-- The test `head->next == tail` on a well-formed list with a real node. -/
theorem not_empty_wf {ll : ll_LinkedList} {ps : List Nat} {hN : Node} (hne : ps ≠ [])
    (hseg : Seg ll hN.next ps) (htp : ll.tail ∉ ps) : (hN.next == ll.tail) = false := by
  simp only [beq_eq_false_iff_ne, ne_eq]
  intro h
  rcases seg_link hseg with h1 | h1
  · cases ps with
    | nil => exact hne rfl
    | cons q qs => exact htp (by rw [← h, hseg.1]; simp)
  · exact htp (h ▸ h1)

/-- On a well-formed list of any topology, `ll_get_after` returns the element
that follows the first occurrence of the anchor, when that occurrence is not
the last element. -/
theorem get_after_wf {ll : ll_LinkedList} {ps : List Nat} {xs pre post : List Elem}
    {a y : Elem} {fuel : Nat}
    (hwf : WellFormed ll ps) (hxs : ll_elements ll = .ok xs) (hf : ps.length < fuel)
    (ha : xs = pre ++ a :: y :: post) (ha1 : a ∉ pre) :
    ll_get_after fuel ll a = .ok y := by
  obtain ⟨hN, fN, tN, hh, hfn, htN, hlink, hseg, hfh, hht, hhp, htp, hnd⟩ := wf_parts hwf
  have hxs0 := elements_wf hwf
  rw [hxs] at hxs0
  have hxs1 : ps.map (payload ll) = pre ++ a :: y :: post := by
    injection hxs0 with h
    rw [← h, ha]
  obtain ⟨l1, l2, hps, hl1, hl2⟩ := List.map_eq_append_iff.1 hxs1
  obtain ⟨p, l3, rfl, hp, hl3⟩ := List.map_eq_cons_iff.1 hl2
  obtain ⟨r, l4, rfl, hr, _⟩ := List.map_eq_cons_iff.1 hl3
  subst hps
  have hpre : ∀ s ∈ l1, payload ll s ≠ a := by
    intro s hs h
    apply ha1
    rw [← hl1, ← h]
    exact List.mem_map_of_mem _ hs
  have hfind := find_here_chain a hht l1 p r l4 hN.next fuel hseg hnd htp hhp hpre hp
    (by simp at hf; omega)
  obtain ⟨q', hq'⟩ := seg_drop l1 hseg
  obtain ⟨_, n, hn, hnr, m, hm, _⟩ := hq'
  have hne := not_empty_wf (by simp) hseg htp
  simp only [ll_get_after, ll_islinkedlistempty, next_ok hh, ok_bind, hne, pure, Except.pure,
    hfind, next_ok hn, hnr]
  rw [← hr, payload_ok hm]
  exact elem_ok hm

/-- On a well-formed list of any topology, `ll_get_before` returns the element
in front of the first occurrence of the anchor at a position other than the
first. -/
theorem get_before_wf {ll : ll_LinkedList} {ps : List Nat} {xs pre post : List Elem}
    {b z : Elem} {fuel : Nat}
    (hwf : WellFormed ll ps) (hxs : ll_elements ll = .ok xs) (hf : ps.length < fuel)
    (hb : xs = pre ++ z :: b :: post) (hb1 : b ∉ (pre ++ [z]).tail) :
    ll_get_before fuel ll b = .ok z := by
  obtain ⟨hN, fN, tN, hh, hfn, htN, hlink, hseg, hfh, hht, hhp, htp, hnd⟩ := wf_parts hwf
  have hxs0 := elements_wf hwf
  rw [hxs] at hxs0
  have hxs1 : ps.map (payload ll) = pre ++ z :: b :: post := by
    injection hxs0 with h
    rw [← h, hb]
  obtain ⟨l1, l2, hps, hl1, hl2⟩ := List.map_eq_append_iff.1 hxs1
  obtain ⟨zp, l3, rfl, hz, hl3⟩ := List.map_eq_cons_iff.1 hl2
  obtain ⟨p, l4, rfl, hp, _⟩ := List.map_eq_cons_iff.1 hl3
  subst hps
  have hpre : ∀ s ∈ (l1 ++ [zp]).tail, payload ll s ≠ b := by
    intro s hs h
    apply hb1
    have hmap : (pre ++ [z]).tail = ((l1 ++ [zp]).tail).map (payload ll) := by
      rw [List.map_tail, List.map_append, hl1, List.map_cons, hz, List.map_nil]
    rw [hmap, ← h]
    exact List.mem_map_of_mem _ hs
  have hfind := find_next_chain b hht l1 zp p l4 hN.next fuel hseg hnd htp hhp hpre hp
    (by simp at hf; omega)
  obtain ⟨q', hq'⟩ := seg_drop l1 hseg
  obtain ⟨_, n, hn, _⟩ := hq'
  have hne := not_empty_wf (by simp) hseg htp
  simp only [ll_get_before, ll_islinkedlistempty, next_ok hh, ok_bind, hne, pure, Except.pure,
    hfind]
  rw [← hz, payload_ok hn]
  exact elem_ok hn

/-- The singly-linked list [1, 2, 3] is well formed; its real nodes are at
addresses 5, 4, 3. -/
theorem singly_123_wf : WellFormed singly_123 [5, 4, 3] :=
  ⟨⟨rfl, _, rfl, rfl, _, rfl, rfl, _, rfl, rfl, _, rfl, rfl⟩, by decide, by decide, _, rfl, rfl⟩

/-- The singly-linked input written out is the one the public operations
build. -/
theorem build_singly_123 : ll_build ll_SINGLY [1, 2, 3] = .ok singly_123 := rfl

/-! ## Positional read (C21) -/

/-- C21 (code bug): for `pos >= 1`, `ll_get_elementatpos` does not return the
element at index `pos`.  On the doubly-linked list [1, 2, 3] of size 3 it
returns 1 at position 0, null (the payload of the head sentinel) at position
1 where the claim names 2, and 1 at position 2 where the claim names 3; at
position 3 it returns null as claimed. -/
theorem C21_get_at_reads_two_early :
    (do let ll ← ll_build ll_DOUBLY [1, 2, 3]
        pure (← ll_get_elementatpos ll 0, ← ll_get_elementatpos ll 1,
          ← ll_get_elementatpos ll 2, ← ll_get_elementatpos ll 3)) = Except.ok (1, 0, 1, 0) :=
  rfl

/-! ## Identity-relative deletion (C22 to C24) -/

/-- C22 (code bug): `ll_delete` never removes the first node.  On the
doubly-linked list [1, 2], `ll_delete(list, 1, dtor)` leaves [1, 2]; on
[1, 2, 1, 3] it removes the second node holding 1 and leaves [1, 2, 3], where
the claim names [2, 1, 3]. -/
theorem C22_delete_skips_first_node :
    (do let ll ← ll_build ll_DOUBLY [1, 2]
        let ll ← ll_delete 4 ll 1
        ll_elements ll) = Except.ok [1, 2]
    ∧ (do let ll ← ll_build ll_DOUBLY [1, 2, 1, 3]
          let ll ← ll_delete 8 ll 1
          ll_elements ll) = Except.ok [1, 2, 3] :=
  ⟨rfl, rfl⟩

/-- C23 (code bug): `ll_delete_after` with the anchor in the last node
destroys the tail sentinel on circular and singly-linked lists.  On the list
[1, 2] with anchor 2 the cell of the tail sentinel (address 2) is released and
the node holding 2 (address 3) is linked to the head sentinel (circular) or to
null (singly).  With an absent anchor the singly-linked scan reads through the
null link of the tail sentinel. -/
theorem C23_delete_after_last_frees_tail :
    (do let ll ← ll_build ll_CIRCLY [1, 2]
        let ll ← ll_delete_after 4 ll 2
        pure (ll.head, ll.tail, ll.mem))
      = Except.ok (1, 2, [some { elem := 0, next := 4, prev := 0 }, none,
          some { elem := 2, next := 1, prev := 0 }, some { elem := 1, next := 3, prev := 0 }])
    ∧ (do let ll ← ll_build ll_SINGLY [1, 2]
          let ll ← ll_delete_after 4 ll 2
          pure (ll.head, ll.tail, ll.mem))
      = Except.ok (1, 2, [some { elem := 0, next := 4, prev := 0 }, none,
          some { elem := 2, next := 0, prev := 0 }, some { elem := 1, next := 3, prev := 0 }])
    ∧ (do let ll ← ll_build ll_SINGLY [1, 2]
          ll_delete_after 4 ll 7) = Except.error Fault.invalid :=
  ⟨rfl, rfl, rfl⟩

/-- C24 (code bug): `ll_delete_before` removes the last element whatever the
anchor.  On the doubly-linked list [1, 2, 3] the result is [1, 2] for anchor 2
(the claim names [2, 3]), for anchor 1, the first element, and for the absent
anchor 7 (the claim names [1, 2, 3] for both). -/
theorem C24_delete_before_removes_last :
    (do let ll ← ll_build ll_DOUBLY [1, 2, 3]
        let ll ← ll_delete_before 4 ll 2
        ll_elements ll) = Except.ok [1, 2]
    ∧ (do let ll ← ll_build ll_DOUBLY [1, 2, 3]
          let ll ← ll_delete_before 4 ll 1
          ll_elements ll) = Except.ok [1, 2]
    ∧ (do let ll ← ll_build ll_DOUBLY [1, 2, 3]
          let ll ← ll_delete_before 4 ll 7
          ll_elements ll) = Except.ok [1, 2] :=
  ⟨rfl, rfl, rfl⟩

/-! ## Identity-relative insertion (C25 to C27) -/

/-- C25 (code bug): on a non-empty singly-linked list an absent target is not
reported.  On the list [1, 2], `ll_insert_before(list, 5, 9)`,
`ll_insert_after(list, 5, 9)` and `ll_exchange(list, 5, 1)` all read through
the null link of the tail sentinel instead of returning a status. -/
theorem C25_absent_target_singly_faults :
    (do let ll ← ll_build ll_SINGLY [1, 2]
        ll_insert_before 4 ll 5 9) = Except.error Fault.invalid
    ∧ (do let ll ← ll_build ll_SINGLY [1, 2]
          ll_insert_after 4 ll 5 9) = Except.error Fault.invalid
    ∧ (do let ll ← ll_build ll_SINGLY [1, 2]
          ll_exchange 4 ll 5 1) = Except.error Fault.invalid :=
  ⟨rfl, rfl, rfl⟩

/-- C26 (code bug): `ll_insert_before` does not find an anchor held by the
first node.  On the doubly-linked and on the circular list [1, 2],
`ll_insert_before(list, 1, 9)` returns `NOTFOUND` and the list is still
[1, 2] with size 2. -/
theorem C26_insert_before_first_not_found :
    (do let ll ← ll_build ll_DOUBLY [1, 2]
        let (ll, rc) ← ll_insert_before 4 ll 1 9
        pure (rc, ← ll_elements ll, ll_getlinkedlistsize ll)) = Except.ok (NOTFOUND, [1, 2], 2)
    ∧ (do let ll ← ll_build ll_CIRCLY [1, 2]
          let (ll, rc) ← ll_insert_before 4 ll 1 9
          pure (rc, ← ll_elements ll, ll_getlinkedlistsize ll))
        = Except.ok (NOTFOUND, [1, 2], 2) :=
  ⟨rfl, rfl⟩

/-- C27 (code bug): on an empty list the two entries come out in the opposite
order.  For every topology, anchor and element `e`, on the list returned by
`ll_init`, `ll_insert_before(list, anchor, e)` returns `SUCCESS` with size 2
and leaves [anchor, e] where the claim names [e, anchor], and
`ll_insert_after(list, anchor, e)` leaves [e, anchor] where the claim names
[anchor, e]. -/
theorem C27_empty_insert_order_reversed (type : ll_ListType) (anchor e : Elem) (fuel : Nat) :
    (do let ll ← ll_init type
        let (ll, rc) ← ll_insert_before fuel ll anchor e
        pure (rc, ← ll_elements ll, ll_getlinkedlistsize ll))
      = Except.ok (SUCCESS, [anchor, e], 2)
    ∧ (do let ll ← ll_init type
          let (ll, rc) ← ll_insert_after fuel ll anchor e
          pure (rc, ← ll_elements ll, ll_getlinkedlistsize ll))
      = Except.ok (SUCCESS, [e, anchor], 2) := by
  cases type <;>
  simp [ll_init, ll_insert, ll_insert_before, ll_insert_after, ll_elements, walk,
    ll_islinkedlistempty, _init_node, ll_LinkedList.next, ll_LinkedList.elem,
    ll_LinkedList.node, ll_LinkedList.setNext, ll_LinkedList.setPrev, ll_LinkedList.setElem,
    ll_LinkedList.store, ll_LinkedList.incSize, ll_getlinkedlistsize, SUCCESS, SIZE_MOD,
    bind, Except.bind, pure, Except.pure]

/-! ## Neighbour reads (C28) -/

/-- C28 (confirmed): on a well-formed list of any topology with forward
element sequence `xs`, and with a budget above the number of nodes:
if `xs = pre_a ++ a :: y :: post_a` with `a` not in `pre_a` (the first
occurrence of `a` is not the last element), `ll_get_after(list, a)` returns
`y`; if `xs = pre_b ++ z :: b :: post_b` with no `b` at positions 1 up to
that one, `ll_get_before(list, b)` returns `z`.  Both functions only read the
list: they return an element and no new list state. -/
theorem C28_get_neighbours (ll : ll_LinkedList) (ps : List Nat) (xs : List Elem)
    (a b y z : Elem) (pre_a post_a pre_b post_b : List Elem) (fuel : Nat)
    (hwf : WellFormed ll ps) (hxs : ll_elements ll = .ok xs) (hf : ps.length < fuel)
    (ha : xs = pre_a ++ a :: y :: post_a) (ha1 : a ∉ pre_a)
    (hb : xs = pre_b ++ z :: b :: post_b) (hb1 : b ∉ (pre_b ++ [z]).tail) :
    ll_get_after fuel ll a = .ok y ∧ ll_get_before fuel ll b = .ok z :=
  ⟨get_after_wf hwf hxs hf ha ha1, get_before_wf hwf hxs hf hb hb1⟩

/-- C28 (witness): on the singly-linked list [1, 2, 3], `ll_get_after` of 2
is 3 and `ll_get_before` of 3 is 2. -/
theorem C28_get_neighbours_witness :
    WellFormed singly_123 [5, 4, 3] ∧ ll_elements singly_123 = .ok [1, 2, 3]
    ∧ ll_get_after 4 singly_123 2 = .ok 3 ∧ ll_get_before 4 singly_123 3 = .ok 2 :=
  ⟨singly_123_wf, rfl,
    C28_get_neighbours singly_123 [5, 4, 3] [1, 2, 3] 2 3 3 2 [1] [] [1] [] 4 singly_123_wf rfl
      (by decide) rfl (by decide) rfl (by decide)⟩

/-! ## Search (C29, C30) -/

/-- C29 (code bug): `ll_search` does not look at the last node.  On the
doubly-linked and on the circular list [1, 2], `ll_search(list, 2)` returns
false although the last node holds 2; on the singly-linked list [1, 2] the
scan reads through the null link of the tail sentinel. -/
theorem C29_search_misses_last_node :
    (do let ll ← ll_build ll_DOUBLY [1, 2]
        ll_search 4 ll 2) = Except.ok false
    ∧ (do let ll ← ll_build ll_CIRCLY [1, 2]
          ll_search 4 ll 2) = Except.ok false
    ∧ (do let ll ← ll_build ll_SINGLY [1, 2]
          ll_search 4 ll 2) = Except.error Fault.invalid :=
  ⟨rfl, rfl, rfl⟩

/-- C30 (code bug): `ll_search_reverse` and `ll_search` disagree.  On the
doubly-linked list [1, 2, 3], `ll_search(list, 1)` is true and
`ll_search_reverse(list, 1)` is false (the backward scan stops before the
first node).  On the circular list [1, 2, 3], `ll_search(list, 2)` is true and
`ll_search_reverse(list, 2)` is false (`_search_reverse` discards the result
of its recursive call and reports on the first node only). -/
theorem C30_search_reverse_differs :
    (do let ll ← ll_build ll_DOUBLY [1, 2, 3]
        pure (← ll_search 4 ll 1, ← ll_search_reverse 4 ll 1)) = Except.ok (true, false)
    ∧ (do let ll ← ll_build ll_CIRCLY [1, 2, 3]
          pure (← ll_search 4 ll 2, ← ll_search_reverse 4 ll 2)) = Except.ok (true, false) :=
  ⟨rfl, rfl⟩

/-! ## Exchange at the boundary (C31, C32) -/

/-- C31 (code defect): the scan of `ll_exchange` ends before the last node is
compared.  On the Doubly and the Circular list `[1, 2, 3]` the call
`ll_exchange(list, 1, 3)` returns `ERROR` and leaves the list as it was,
although 1 and 3 each occur once; on the Singly list the scan reads through
the null link of the tail sentinel.  With both elements before the last
position (`[1, 3, 2]`) the payloads are swapped. -/
theorem C31_exchange_misses_last_node :
    (do let ll ← ll_build ll_DOUBLY [1, 2, 3]
        let (ll', rc) ← ll_exchange 4 ll 1 3
        pure (rc, ← ll_elements ll')) = Except.ok (ERROR, [1, 2, 3])
    ∧ (do let ll ← ll_build ll_CIRCLY [1, 2, 3]
          let (ll', rc) ← ll_exchange 4 ll 1 3
          pure (rc, ← ll_elements ll')) = Except.ok (ERROR, [1, 2, 3])
    ∧ (∀ fuel, (do let ll ← ll_build ll_SINGLY [1, 2, 3]
                   let (ll', rc) ← ll_exchange (fuel + 4) ll 1 3
                   pure (rc, ← ll_elements ll')) = Except.error Fault.invalid)
    ∧ (do let ll ← ll_build ll_DOUBLY [1, 3, 2]
          let (ll', rc) ← ll_exchange 4 ll 1 3
          pure (rc, ← ll_elements ll')) = Except.ok (SUCCESS, [3, 1, 2]) :=
  ⟨rfl, rfl, fun _ => rfl, rfl⟩

/-- C32 (code defect): with `elem1 == elem2` the second comparison of the
loop of `ll_exchange` is an `else` branch and is never reached, so `n2` stays
null.  On the Doubly and the Circular list `[1, 2, 3]` the call
`ll_exchange(list, 1, 1)` returns `ERROR` (the list itself is unchanged); on
the Singly list the scan reads through the null link of the tail sentinel. -/
theorem C32_exchange_same_element_reports_error :
    (do let ll ← ll_build ll_DOUBLY [1, 2, 3]
        let (ll', rc) ← ll_exchange 4 ll 1 1
        pure (rc, decide (ll' = ll))) = Except.ok (ERROR, true)
    ∧ (do let ll ← ll_build ll_CIRCLY [1, 2, 3]
          let (ll', rc) ← ll_exchange 4 ll 1 1
          pure (rc, decide (ll' = ll))) = Except.ok (ERROR, true)
    ∧ (∀ fuel, (do let ll ← ll_build ll_SINGLY [1, 2, 3]
                   let (_, rc) ← ll_exchange (fuel + 4) ll 1 1
                   pure rc) = Except.error Fault.invalid) :=
  ⟨rfl, rfl, fun _ => rfl⟩

/-! ## Vector growth and reads (C33) -/

/-- The value of `SIZE_MOD`. -/
theorem size_mod_eq : SIZE_MOD = 18446744073709551616 := by
  norm_num [SIZE_MOD]

/-- When the byte count passed to `realloc` does not wrap, `_grow_vector`
appends `capacity` indeterminate cells and doubles `capacity`. -/
theorem grow_spec (vt : vt_Vector) (hl : vt.list.length = vt.capacity)
    (hc : 16 * vt.capacity < SIZE_MOD) :
    _grow_vector vt = { vt with list := vt.list ++ List.replicate vt.capacity none,
                                capacity := vt.capacity * 2 } := by
  have hM := size_mod_eq
  have h1 : vt.capacity * 2 % SIZE_MOD = vt.capacity * 2 := Nat.mod_eq_of_lt (by omega)
  have h2 : vt.capacity * 2 * 8 % SIZE_MOD = vt.capacity * 2 * 8 :=
    Nat.mod_eq_of_lt (by omega)
  have h3 : vt.capacity * 2 * 8 / 8 = vt.capacity * 2 := by omega
  have h4 : vt.capacity * 2 - vt.list.length = vt.capacity := by omega
  have h5 : (vt.list ++ List.replicate vt.capacity (none : Option Elem)).length
      ≤ vt.capacity * 2 := by
    simp [hl]; omega
  simp only [_grow_vector, vt_ELEMENT_BYTES, h1, h2, h3, h4, List.take_of_length_le h5]

/-- Writing position `n` of a buffer whose first `n` cells are `a`. -/
theorem take_set_succ {α : Type} (x : α) : ∀ (l : List α) (n : Nat), n < l.length →
    (l.set n x).take (n + 1) = l.take n ++ [x] := by
  intro l
  induction l with
  | nil => intro n h; simp at h
  | cons y l ih =>
    intro n h
    cases n with
    | zero => simp
    | succ n =>
      have h' : n < l.length := by simpa using h
      simp [ih n h']

/-- One `vt_add` on a vector holding `ys` gives a vector holding `ys` followed
by the new element, provided the doubled buffer fits the address space. -/
theorem add_holds {vt : vt_Vector} {ys : List Elem} (e : Elem) (h : vt_Holds vt ys)
    (hb : 16 * (ys.length + 1) ≤ SIZE_MOD) :
    ∃ vt', vt_add vt e = .ok vt' ∧ vt_Holds vt' (ys ++ [e]) := by
  obtain ⟨size, index, capacity, list⟩ := vt
  obtain ⟨hs, hi, hl, hle, htk, hpos⟩ := h
  simp only at hs hi hl hle htk hpos
  subst hs hi hl
  have hM := size_mod_eq
  have hmod : (ys.length + 1) % SIZE_MOD = ys.length + 1 := Nat.mod_eq_of_lt (by omega)
  by_cases hg : ys.length = list.length
  · have hgrow := grow_spec ⟨ys.length, ys.length, list.length, list⟩ rfl
      (by show 16 * list.length < SIZE_MOD; omega)
    simp only at hgrow
    have hlen : (list ++ List.replicate list.length (none : Option Elem)).length
        = list.length + list.length := by
      rw [List.length_append, List.length_replicate]
    have hlt : ys.length < (list ++ List.replicate list.length (none : Option Elem)).length := by
      rw [hlen]; omega
    refine ⟨{ size := ys.length + 1, index := ys.length + 1, capacity := list.length * 2,
              list := (list ++ List.replicate list.length none).set ys.length (some e) },
            ?_, ?_⟩
    · simp only [vt_add, if_pos hg, hgrow, vt_Vector.write, if_pos hlt, hmod, bind,
        Except.bind, pure, Except.pure]
    · have c3 : ((list ++ List.replicate list.length (none : Option Elem)).set ys.length
          (some e)).length = list.length * 2 := by
        rw [List.length_set, hlen]; omega
      have c4 : (ys ++ [e]).length ≤ list.length * 2 := by
        rw [List.length_append, List.length_singleton]; omega
      refine ⟨by simp, by simp, c3, c4, ?_, by simp only; omega⟩
      have := take_set_succ (some e) _ _ hlt
      simp only [List.length_append, List.length_singleton, this, List.map_append,
        List.map_cons, List.map_nil]
      rw [List.take_append_of_le_length (by omega), htk]
  · have hlt : ys.length < list.length := by omega
    refine ⟨{ size := ys.length + 1, index := ys.length + 1, capacity := list.length,
              list := list.set ys.length (some e) }, ?_, ?_⟩
    · simp only [vt_add, if_neg hg, vt_Vector.write, if_pos hlt, hmod, bind,
        Except.bind, pure, Except.pure]
    · have c4 : (ys ++ [e]).length ≤ list.length := by
        rw [List.length_append, List.length_singleton]; omega
      refine ⟨by simp, by simp, by simp, c4, ?_, hpos⟩
      have := take_set_succ (some e) _ _ hlt
      simp only [List.length_append, List.length_singleton, this, List.map_append,
        List.map_cons, List.map_nil, htk]

/-- Adding the elements `xs` one after the other to a vector holding `ys`. -/
theorem fold_add_holds : ∀ (xs ys : List Elem) (vt : vt_Vector), vt_Holds vt ys →
    16 * (ys.length + xs.length) ≤ SIZE_MOD →
    ∃ vt', xs.foldlM vt_add vt = .ok vt' ∧ vt_Holds vt' (ys ++ xs) := by
  intro xs
  induction xs with
  | nil => intro ys vt h _; exact ⟨vt, rfl, by simpa using h⟩
  | cons x xs ih =>
    intro ys vt h hb
    simp only [List.length_cons] at hb
    obtain ⟨v1, h1, hh1⟩ := add_holds x h (by omega)
    obtain ⟨v2, h2, hh2⟩ := ih (ys ++ [x]) v1 hh1 (by simp; omega)
    refine ⟨v2, ?_, by simpa using hh2⟩
    simp only [List.foldlM, h1, bind, Except.bind, h2]

/-- The vector fresh from `vt_init` holds no element. -/
theorem init_holds : vt_Holds vt_init [] :=
  ⟨rfl, rfl, by simp [vt_init], by simp, rfl, by decide⟩

/-- C33 (confirmed): let `xs` be the elements handed to `vt_add`, in order,
starting from `vt_init`, with a buffer that fits the address space.  All the
calls return, `vt_getsize` is the number of elements, `vt_get_at(vt, i)` is
the `i`-th element for `i` below that number and null from there on, and
`vt_get` is the last element. -/
theorem C33_add_then_read (xs : List Elem) (hb : 16 * xs.length ≤ SIZE_MOD) :
    ∃ vt, vt_build xs = .ok vt
      ∧ vt_getsize vt = xs.length
      ∧ (∀ (i : Nat) (hi : i < xs.length), vt_get_at vt i = .ok xs[i])
      ∧ (∀ i : Nat, xs.length ≤ i → vt_get_at vt i = .ok 0)
      ∧ (∀ hne : xs ≠ [], vt_get vt = .ok (xs.getLast hne)) := by
  obtain ⟨vt, hbuild, hs, hi, hl, hle, htk, _⟩ :=
    fold_add_holds xs [] vt_init init_holds (by simpa using hb)
  simp only [List.nil_append] at hs hi hle htk
  have hM := size_mod_eq
  have hread : ∀ (i : Nat) (hi : i < xs.length), vt.read i = .ok xs[i] := by
    intro i hi
    have h2 : (vt.list.take xs.length)[i]? = (xs.map some)[i]? := by rw [htk]
    have h1 : vt.list[i]? = some (some xs[i]) := by
      simpa [List.getElem?_take, hi] using h2
    simp [vt_Vector.read, h1]
  refine ⟨vt, hbuild, hs, ?_, ?_, ?_⟩
  · intro i hi
    simp [vt_get_at, hs, hi, hread i hi]
  · intro i hge
    have : ¬ i < xs.length := by omega
    simp [vt_get_at, hs, this, pure, Except.pure]
  · intro hne
    have hpos : 0 < xs.length := List.length_pos.mpr hne
    have hidx : (vt.index + SIZE_MOD - 1) % SIZE_MOD = xs.length - 1 := by
      rw [hi]
      have : xs.length + SIZE_MOD - 1 = (xs.length - 1) + SIZE_MOD := by omega
      rw [this, Nat.add_mod_right]
      exact Nat.mod_eq_of_lt (by omega)
    have hemp : vt_isempty vt = false := by
      simp [vt_isempty, hs, hne]
    simp only [vt_get, hemp, hidx, hread (xs.length - 1) (by omega)]
    simp [List.getLast_eq_getElem]

/-- C33 (witness): sixty elements, ten more than the initial capacity. -/
theorem C33_add_then_read_witness :
    16 * (List.range 60).length ≤ SIZE_MOD
    ∧ ∃ vt, vt_build (List.range 60) = .ok vt
      ∧ vt_getsize vt = (List.range 60).length
      ∧ (∀ (i : Nat) (hi : i < (List.range 60).length), vt_get_at vt i = .ok (List.range 60)[i])
      ∧ (∀ i : Nat, (List.range 60).length ≤ i → vt_get_at vt i = .ok 0)
      ∧ (∀ hne : List.range 60 ≠ [], vt_get vt = .ok ((List.range 60).getLast hne)) :=
  ⟨by decide, C33_add_then_read (List.range 60) (by decide)⟩

/-! ## Vector sort (C34) -/

/-- The first recursive call of `_sort(list, 0, high, comp)` with `0 < high`
is `_sort(list, 0, high / 2 + 1, comp)`, again on a range that starts at 0 and
is not empty, so no depth of recursion is enough. -/
theorem sort_from_zero_diverges (deref : vt_Deref) (comp : vt_ElemCompare) :
    ∀ (fuel : Nat) (vt : vt_Vector) (high : Nat), 0 < high →
      _sort deref comp fuel vt 0 high = .error .fuel := by
  intro fuel
  induction fuel with
  | zero => intro vt high _; rfl
  | succ fuel ih =>
    intro vt high hh
    have h1 : _sort deref comp fuel vt 0 ((high - 0) / 2 + 1) = .error .fuel :=
      ih vt _ (Nat.succ_pos _)
    simp only [_sort, hh, if_true, h1]
    rfl

/-- C34 (code defect): `_sort` computes `mid = (high - low) / 2` without
adding `low` and recurses whenever `low < high`, so the call on the range
`[0, 1)` makes its first recursive call on `[0, 1)` again.  On every vector
with at least one element `vt_sort` exhausts every recursion depth. -/
theorem C34_sort_does_not_terminate (deref : vt_Deref) (comp : vt_ElemCompare)
    (vt : vt_Vector) (fuel : Nat) (h : 0 < vt_getsize vt) :
    vt_sort fuel deref comp vt = .error .fuel :=
  sort_from_zero_diverges deref comp fuel vt vt.size h

/-- Instance of C34: the vector holding the single element 7, compared by
value, with 1000 levels of recursion. -/
theorem C34_sort_does_not_terminate_witness :
    (0 < vt_getsize { size := 1, index := 1, capacity := 50,
                      list := some 7 :: List.replicate 49 (some 0) })
    ∧ vt_build [7] = .ok { size := 1, index := 1, capacity := 50,
                           list := some 7 :: List.replicate 49 (some 0) }
    ∧ vt_sort 1000 (fun _ _ => .error .invalid) cmp_value
        { size := 1, index := 1, capacity := 50,
          list := some 7 :: List.replicate 49 (some 0) } = .error .fuel :=
  ⟨by decide, rfl,
    C34_sort_does_not_terminate (fun _ _ => .error .invalid) cmp_value
      { size := 1, index := 1, capacity := 50,
        list := some 7 :: List.replicate 49 (some 0) } 1000 (by decide)⟩

/-! ## Vector removal (C35) -/

/-- C35 (code defect): `vt_remove` releases the element in `list[index-1]`
and writes neither `size` nor `index`.  After `vt_add(7); vt_add(8);
vt_remove` the size is still 2; without a destructor `vt_get` returns null
(not 7) and with one it still returns 8.  On the vector fresh from `vt_init`
the function reads `list[index-1]` with `index == 0`, a position outside the
buffer. -/
theorem C35_remove_keeps_size :
    (do let vt ← vt_build [7, 8]
        let vt ← vt_remove vt false
        pure (vt_getsize vt, vt.index, ← vt_get vt, ← vt_get_at vt 1))
      = Except.ok (2, 2, 0, 0)
    ∧ (do let vt ← vt_build [7, 8]
          let vt ← vt_remove vt true
          pure (vt_getsize vt, vt.index, ← vt_get vt, ← vt_get_at vt 1))
      = Except.ok (2, 2, 8, 8)
    ∧ vt_isempty vt_init = true
    ∧ vt_remove vt_init false = Except.error Fault.invalid
    ∧ vt_remove vt_init true = Except.error Fault.invalid :=
  ⟨rfl, rfl, rfl, rfl, rfl⟩

/-! ## Topology invariants (C36, C37) -/

/-- C36 (code defect): the Doubly branches of `ll_insert_atend`,
`ll_insert_before` and `ll_insert_after` set `node->prev` and never the `prev`
link of the node that follows the new one, and the delete operations write
`tmp->next->next->prev` after `tmp->next` has been advanced.  The list fresh
from `ll_init(ll_DOUBLY)` and the list built by `ll_insert` are consistent;
after `ll_insert_atend` on `[1]` the backward chain from the tail sentinel is
`[1]` while the forward chain is `[1, 2]`, and `ll_insert_before`,
`ll_insert_after`, `ll_delete`, `ll_delete_after` and `ll_delete_elementatpos`
on `[1, 2, 3]` also leave a node `n` with `n->next->prev != n`. -/
theorem C36_doubly_links_not_preserved :
    (do let ll ← ll_init ll_DOUBLY
        ll_links_consistent ll) = Except.ok true
    ∧ (do let ll ← ll_build ll_DOUBLY [1, 2, 3]
          pure (← ll_links_consistent ll, ← ll_elements ll, ← ll_elements_back ll))
        = Except.ok (true, [1, 2, 3], [3, 2, 1])
    ∧ (do let ll ← ll_build ll_DOUBLY [1]
          let (ll, _) ← ll_insert_atend 4 ll 2
          pure (← ll_links_consistent ll, ← ll_elements ll, ← ll_elements_back ll))
        = Except.ok (false, [1, 2], [1])
    ∧ (do let ll ← ll_build ll_DOUBLY [1, 2, 3]
          let (ll, _) ← ll_insert_before 4 ll 2 9
          pure (← ll_links_consistent ll, ← ll_elements ll, ← ll_elements_back ll))
        = Except.ok (false, [1, 9, 2, 3], [3, 2, 1])
    ∧ (do let ll ← ll_build ll_DOUBLY [1, 2, 3]
          let (ll, _) ← ll_insert_after 4 ll 1 9
          pure (← ll_links_consistent ll, ← ll_elements ll, ← ll_elements_back ll))
        = Except.ok (false, [1, 9, 2, 3], [3, 2, 1])
    ∧ (do let ll ← ll_build ll_DOUBLY [1, 2, 3]
          let ll ← ll_delete 4 ll 2
          pure (← ll_links_consistent ll, ← ll_elements ll, ← ll_elements_back ll))
        = Except.ok (false, [1, 3], [1])
    ∧ (do let ll ← ll_build ll_DOUBLY [1, 2, 3]
          let ll ← ll_delete_after 4 ll 1
          pure (← ll_links_consistent ll, ← ll_elements ll, ← ll_elements_back ll))
        = Except.ok (false, [1, 3], [1])
    ∧ (do let ll ← ll_build ll_DOUBLY [1, 2, 3]
          let ll ← ll_delete_elementatpos ll 2
          pure (← ll_links_consistent ll, ← ll_elements ll, ← ll_elements_back ll))
        = Except.ok (false, [1, 3], [1]) :=
  ⟨rfl, rfl, rfl, rfl, rfl, rfl, rfl, rfl⟩

/-- C37 (code defect): `ll_reverse` redirects the `next` links of the real
nodes and swaps the two sentinel pointers without relinking the sentinels, and
the Circular scans of `ll_delete_atend` and `ll_delete_after` stop with
`tmp->next` on the tail sentinel.  The list fresh from `ll_init(ll_CIRCLY)`
and the list built by `ll_insert` have the ring shape.  After `ll_reverse` on
`[1, 2, 3]` the chain from the head sentinel reaches the tail sentinel without
passing a real node (the three real nodes at 3, 4, 5 are still allocated) and
`tail->next` is not the head sentinel; after `ll_delete_atend`, and after
`ll_delete_after` with the anchor in the last node, the tail sentinel is freed
and the chain from the head sentinel never reaches it (the walk uses up its
budget of one step per cell). -/
theorem C37_ring_shape_not_preserved :
    (do let ll ← ll_init ll_CIRCLY
        ll_ring_shape ll) = Except.ok true
    ∧ (do let ll ← ll_build ll_CIRCLY [1, 2, 3]
          ll_ring_shape ll) = Except.ok true
    ∧ (do let ll ← ll_build ll_CIRCLY [1, 2, 3]
          let ll ← ll_reverse 4 ll
          pure (← ll_ring_shape ll, ← walk_nodes ll 6 (← ll.next ll.head), ll_real_nodes ll,
                ← ll.next ll.tail, ll.head))
        = Except.ok (false, [], [3, 4, 5], 5, 2)
    ∧ (do let ll ← ll_build ll_CIRCLY [1, 2, 3]
          let ll ← ll_delete_atend 4 ll
          pure (ll.node ll.tail)) = Except.ok (Except.error Fault.invalid)
    ∧ (do let ll ← ll_build ll_CIRCLY [1, 2, 3]
          let ll ← ll_delete_atend 4 ll
          ll_ring_shape ll) = Except.error Fault.fuel
    ∧ (do let ll ← ll_build ll_CIRCLY [1, 2, 3]
          let ll ← ll_delete_after 4 ll 3
          pure (ll.node ll.tail)) = Except.ok (Except.error Fault.invalid)
    ∧ (do let ll ← ll_build ll_CIRCLY [1, 2, 3]
          let ll ← ll_delete_after 4 ll 3
          ll_ring_shape ll) = Except.error Fault.fuel :=
  ⟨rfl, rfl, rfl, rfl, rfl, rfl, rfl⟩

/-! ## Singly scans to the end (C38) -/

/-- C38 (code defect): the Singly scans test `tmp->next != tmp->next->next`
and the tail sentinel of a Singly list has a null `next`, so at the last real
node the test still holds, the scan steps onto the tail sentinel, and the next
test reads `tmp->next->next` through the null link.  On the Singly list
`[1, 2, 3]` built by `ll_insert`, each of `ll_insert_atend`, `ll_get_atend`,
`ll_search`, `ll_exchange`, `ll_reverse` and `ll_print` does so whatever the
loop budget above the length of the list; the same `ll_print` on the Doubly
list stops (after two of the three elements). -/
theorem C38_singly_scans_read_through_null :
    (ll_build ll_SINGLY [1, 2, 3] >>= fun ll => ll.next ll.tail) = Except.ok 0
    ∧ (∀ fuel, (do let ll ← ll_build ll_SINGLY [1, 2, 3]
                   let (_, rc) ← ll_insert_atend (fuel + 4) ll 4
                   pure rc) = Except.error Fault.invalid)
    ∧ (∀ fuel, (do let ll ← ll_build ll_SINGLY [1, 2, 3]
                   ll_get_atend (fuel + 4) ll) = Except.error Fault.invalid)
    ∧ (∀ fuel, (do let ll ← ll_build ll_SINGLY [1, 2, 3]
                   ll_search (fuel + 4) ll 1) = Except.error Fault.invalid)
    ∧ (∀ fuel, (do let ll ← ll_build ll_SINGLY [1, 2, 3]
                   let (_, rc) ← ll_exchange (fuel + 4) ll 1 2
                   pure rc) = Except.error Fault.invalid)
    ∧ (∀ fuel, (do let ll ← ll_build ll_SINGLY [1, 2, 3]
                   let ll ← ll_reverse (fuel + 4) ll
                   ll_elements ll) = Except.error Fault.invalid)
    ∧ (∀ fuel, (do let ll ← ll_build ll_SINGLY [1, 2, 3]
                   ll_print (fuel + 4) ll) = Except.error Fault.invalid)
    ∧ (do let ll ← ll_build ll_DOUBLY [1, 2, 3]
          ll_print 4 ll) = Except.ok [1, 2] :=
  ⟨rfl, fun _ => rfl, fun _ => rfl, fun _ => rfl, fun _ => rfl, fun _ => rfl, fun _ => rfl, rfl⟩

/-! ## Deletion before an anchor (C39) -/

/-- C39 (confirmed): `ll_delete_before` does not read its anchor.  For every
list, every loop budget and every pair of anchors the two calls give the same
outcome, and that outcome is the one of `ll_delete_atend`. -/
theorem C39_delete_before_ignores_anchor (fuel : Nat) (ll : ll_LinkedList) (a a' : Elem) :
    ll_delete_before fuel ll a = ll_delete_before fuel ll a'
    ∧ ll_delete_before fuel ll a = ll_delete_atend fuel ll :=
  ⟨rfl, rfl⟩

/-! ## Vector bounds (C40) -/

/-- The state in which `vt_add` and `vt_add_at` perform their write: the test
`size == capacity` and the call of `_grow_vector` have been done.  On a vector
within its bounds whose doubled buffer fits the address space, the counters
are untouched, `size` is strictly below the new capacity, and the bounds on
capacity and buffer still hold. -/
theorem grow_bounds {vt : vt_Vector} (h : vt_Bounds vt) (hb : 16 * (vt.size + 1) ≤ SIZE_MOD) :
    (if vt.size = vt.capacity then _grow_vector vt else vt).size = vt.size
    ∧ (if vt.size = vt.capacity then _grow_vector vt else vt).index = vt.index
    ∧ vt.size < (if vt.size = vt.capacity then _grow_vector vt else vt).capacity
    ∧ (∃ k : Nat, (if vt.size = vt.capacity then _grow_vector vt else vt).capacity
        = vt_INITIAL_VECTOR_CAPACITY * 2 ^ k)
    ∧ (if vt.size = vt.capacity then _grow_vector vt else vt).list.length
        = (if vt.size = vt.capacity then _grow_vector vt else vt).capacity := by
  obtain ⟨hi, hs, ⟨k, hk⟩, hl⟩ := h
  have hM := size_mod_eq
  have hpos : 0 < vt.capacity := by
    rw [hk]; exact Nat.mul_pos (by decide) (by positivity)
  by_cases hg : vt.size = vt.capacity
  · have hgrow := grow_spec vt hl (by omega)
    rw [if_pos hg, hgrow]
    refine ⟨rfl, rfl, ?_, ⟨k + 1, ?_⟩, ?_⟩
    · show vt.size < vt.capacity * 2
      omega
    · show vt.capacity * 2 = vt_INITIAL_VECTOR_CAPACITY * 2 ^ (k + 1)
      rw [hk, pow_succ, Nat.mul_assoc]
    · show (vt.list ++ List.replicate vt.capacity none).length = vt.capacity * 2
      rw [List.length_append, List.length_replicate, hl]; omega
  · rw [if_neg hg]
    exact ⟨rfl, rfl, by omega, ⟨k, hk⟩, hl⟩

/-- One call of `vt_add` or `vt_add_at` on a vector within its bounds returns
a vector within its bounds whose size has grown by at most one. -/
theorem call_bounds {vt : vt_Vector} (c : vt_Call) (h : vt_Bounds vt)
    (hb : 16 * (vt.size + 1) ≤ SIZE_MOD) :
    ∃ vt', vt_Call.run vt c = .ok vt' ∧ vt_Bounds vt' ∧ vt'.size ≤ vt.size + 1 := by
  obtain ⟨gs, gi, gc, gk, gl⟩ := grow_bounds h hb
  have hM := size_mod_eq
  have hmod : (vt.size + 1) % SIZE_MOD = vt.size + 1 := Nat.mod_eq_of_lt (by omega)
  have hi := h.1
  have himod : (vt.index + 1) % SIZE_MOD = vt.index + 1 := Nat.mod_eq_of_lt (by omega)
  generalize hw : (if vt.size = vt.capacity then _grow_vector vt else vt) = w at gs gi gc gk gl
  cases c with
  | add elem =>
    have hlt : vt.index < w.list.length := by rw [gl]; omega
    refine ⟨{ size := vt.size + 1, index := vt.index + 1, capacity := w.capacity,
              list := w.list.set vt.index (some elem) }, ?_, ?_, Nat.le_refl _⟩
    · simp only [vt_Call.run, vt_add, hw, vt_Vector.write, if_pos hlt, gs, gi, hmod, himod,
        bind, Except.bind, pure, Except.pure]
    · refine ⟨?_, ?_, gk, ?_⟩
      · show vt.index + 1 ≤ vt.size + 1
        omega
      · show vt.size + 1 ≤ w.capacity
        omega
      · show (w.list.set vt.index (some elem)).length = w.capacity
        rw [List.length_set, gl]
  | add_at elem pos =>
    by_cases hp : pos ≤ vt.size
    · have hlt : pos < w.list.length := by rw [gl]; omega
      refine ⟨{ size := vt.size + 1, index := vt.index, capacity := w.capacity,
                list := w.list.set pos (some elem) }, ?_, ?_, Nat.le_refl _⟩
      · simp only [vt_Call.run, vt_add_at, if_pos hp, hw, vt_Vector.write, if_pos hlt, gs, gi,
          hmod, bind, Except.bind, pure, Except.pure]
      · refine ⟨?_, ?_, gk, ?_⟩
        · show vt.index ≤ vt.size + 1
          omega
        · show vt.size + 1 ≤ w.capacity
          omega
        · show (w.list.set pos (some elem)).length = w.capacity
          rw [List.length_set, gl]
    · refine ⟨vt, ?_, h, by omega⟩
      simp only [vt_Call.run, vt_add_at, if_neg hp, pure, Except.pure]

/-- A sequence of calls started on a vector within its bounds. -/
theorem fold_call_bounds : ∀ (calls : List vt_Call) (vt : vt_Vector), vt_Bounds vt →
    16 * (vt.size + calls.length) ≤ SIZE_MOD →
    ∃ vt', calls.foldlM vt_Call.run vt = .ok vt' ∧ vt_Bounds vt'
      ∧ vt'.size ≤ vt.size + calls.length := by
  intro calls
  induction calls with
  | nil => intro vt h _; exact ⟨vt, rfl, h, by simp⟩
  | cons c calls ih =>
    intro vt h hb
    simp only [List.length_cons] at hb
    obtain ⟨v1, h1, hb1, hs1⟩ := call_bounds c h (by omega)
    obtain ⟨v2, h2, hb2, hs2⟩ := ih v1 hb1 (by omega)
    refine ⟨v2, ?_, hb2, by simp only [List.length_cons]; omega⟩
    simp only [List.foldlM, h1, bind, Except.bind, h2]

/-- The vector fresh from `vt_init` is within its bounds. -/
theorem init_bounds : vt_Bounds vt_init :=
  ⟨Nat.le_refl _, by decide, ⟨0, rfl⟩, by simp [vt_init]⟩

/-- C40 (confirmed): every sequence of `vt_add` and `vt_add_at` calls started
on `vt_init`, with a buffer that fits the address space, returns a vector with
`index <= size <= capacity`, a capacity that is the initial capacity times a
power of two, and a buffer of `capacity` cells.  In the state in which the
next call writes (after its growth test), `index` and every `pos <= size` are
strictly below the capacity. -/
theorem C40_writes_below_capacity (calls : List vt_Call) (pos : Nat)
    (hb : 16 * (calls.length + 1) ≤ SIZE_MOD) :
    ∃ vt, vt_run calls = .ok vt
      ∧ vt.index ≤ vt.size ∧ vt.size ≤ vt.capacity
      ∧ (∃ k : Nat, vt.capacity = vt_INITIAL_VECTOR_CAPACITY * 2 ^ k)
      ∧ vt.list.length = vt.capacity
      ∧ vt.index < (if vt.size = vt.capacity then _grow_vector vt else vt).capacity
      ∧ (pos ≤ vt.size →
          pos < (if vt.size = vt.capacity then _grow_vector vt else vt).capacity) := by
  have hM := size_mod_eq
  obtain ⟨vt, hrun, hbd, hsz⟩ := fold_call_bounds calls vt_init init_bounds
    (by show 16 * (0 + calls.length) ≤ SIZE_MOD; omega)
  have hsz' : vt.size ≤ calls.length := by
    have : vt_init.size = 0 := rfl
    omega
  obtain ⟨_, _, gc, _, _⟩ := grow_bounds hbd (by omega)
  have hi := hbd.1
  exact ⟨vt, hrun, hbd.1, hbd.2.1, hbd.2.2.1, hbd.2.2.2, by omega, fun hp => by omega⟩

/-- C40 (witness): fifty `vt_add` calls fill the initial buffer, the
`vt_add_at` call at position 50 doubles it, and one more `vt_add` follows. -/
theorem C40_writes_below_capacity_witness :
    16 * ((List.replicate 50 (vt_Call.add 7) ++ [vt_Call.add_at 8 50, vt_Call.add 9]).length + 1)
      ≤ SIZE_MOD
    ∧ ∃ vt, vt_run (List.replicate 50 (vt_Call.add 7) ++ [vt_Call.add_at 8 50, vt_Call.add 9])
          = .ok vt
      ∧ vt.index ≤ vt.size ∧ vt.size ≤ vt.capacity
      ∧ (∃ k : Nat, vt.capacity = vt_INITIAL_VECTOR_CAPACITY * 2 ^ k)
      ∧ vt.list.length = vt.capacity
      ∧ vt.index < (if vt.size = vt.capacity then _grow_vector vt else vt).capacity
      ∧ (52 ≤ vt.size →
          52 < (if vt.size = vt.capacity then _grow_vector vt else vt).capacity) :=
  ⟨by decide, C40_writes_below_capacity _ 52 (by decide)⟩

end Algos
